import Mathlib

/-!
# prommy: the WebSocket hub and the metrics flattener

A shallow embedding of `hub.go` (the `Hub.run` control loop) and of
`server.go` (`collectMetrics`, `metricTypeToString`), followed by the
properties proved about them.

Conventions of the embedding:

* a `*Client` pointer is its identity, a natural number (`ClientId`);
* a Go channel `chan []byte` is its buffer and its closed flag (`Chan`);
  every `Client` is built by `ServeWebSocket` with `make(chan []byte, 256)`,
  so the capacity is the constant `sendCap`;
* a Go panic is the error of `Except Panic`;
* the body of every case of the `select` runs between `h.mu.Lock()` and
  `h.mu.Unlock()`, so a case is one atomic step on the registry, also with
  the two `run` loops that `newHub` and `newServer` start; the mutex itself
  is not modelled;
* the unspecified iteration order of `for client := range h.clients` is an
  explicit argument, a duplicate-free list enumerating the registry.
-/

deriving instance DecidableEq for Except

namespace Prommy

/-! ## hub.go -/

/-- Identity of a `*Client`. -/
abbrev ClientId := Nat

/-- A message, `[]byte`. -/
abbrev Payload := List UInt8

/-- Constant `maxConnections` of hub.go. -/
def maxConnections : Nat := 64

/-- Capacity of `Client.send`: the `256` of `make(chan []byte, 256)` in
`ServeWebSocket`. -/
def sendCap : Nat := 256

/-- State of a buffered Go channel of capacity `sendCap`: the messages sent
and not yet received (oldest first) and whether `close` was called. -/
structure Chan where
  buf : List Payload
  closed : Bool
deriving DecidableEq, Repr

/-- The two run-time panics of Go channels that the loop can raise. -/
inductive Panic where
  | sendOnClosedChannel
  | closeOfClosedChannel
deriving DecidableEq, Repr

/-- Go `close(ch)`: panics when the channel is already closed. -/
def Chan.close (ch : Chan) : Except Panic Chan :=
  if ch.closed then .error .closeOfClosedChannel
  else .ok { ch with closed := true }

/-- Go `select { case ch <- m: ... default: ... }`: a send on a closed
channel panics; otherwise the send proceeds when the buffer has room
(`some` of the new channel) and the `default` branch is taken when it has
none (`none`). -/
def Chan.trySend (ch : Chan) (m : Payload) : Except Panic (Option Chan) :=
  if ch.closed then .error .sendOnClosedChannel
  else if ch.buf.length < sendCap then .ok (some { ch with buf := ch.buf ++ [m] })
  else .ok none

/-- Go `m, ok := <-ch` when it does not block: the oldest message leaves the
buffer. On an empty buffer nothing changes (the receiver blocks, or the
`range` loop ends when the channel is closed). -/
def Chan.recv (ch : Chan) : Chan :=
  { ch with buf := ch.buf.tail }

/-- What the loop does to a client's transport (`client.conn`). -/
inductive ConnEffect where
  /-- The call `conn.WriteControl(messageType, FormatCloseMessage(closeCode, text), deadline)`. -/
  | writeControl (client : ClientId) (messageType : Nat) (closeCode : Nat) (text : String)
  /-- The call `conn.Close()`. -/
  | close (client : ClientId)
deriving DecidableEq, Repr

/-- Value of `websocket.CloseMessage`. -/
def CloseMessage : Nat := 8

/-- The part of the program state the loop reads and writes: the registry
`h.clients` (the keys of the `map[*Client]bool`; every stored value is
`true`) and, for every client object, its `send` channel. -/
structure Hub where
  clients : Finset ClientId
  send : ClientId → Chan

/-- State made by `newHub`: an empty registry. A client not yet built by
`ServeWebSocket` has the channel it will be built with, empty and open. -/
def newHub : Hub :=
  { clients := ∅, send := fun _ => { buf := [], closed := false } }

/-- Body of `case client := <-h.register` (hub.go 62-76). -/
def Hub.register (h : Hub) (client : ClientId) : Hub × List ConnEffect :=
  if h.clients.card ≥ maxConnections then
    (h, [ConnEffect.writeControl client CloseMessage 1013
            "Maximum connections reached, try again later",
         ConnEffect.close client])
  else
    ({ h with clients := insert client h.clients }, [])

/-- Body of `case client := <-h.unregister` (hub.go 78-84). -/
def Hub.unregister (h : Hub) (client : ClientId) : Except Panic Hub :=
  if client ∈ h.clients then
    match (h.send client).close with
    | .error e => .error e
    | .ok ch => .ok { clients := h.clients.erase client,
                      send := Function.update h.send client ch }
  else .ok h

/-- One iteration of the `range` loop of the broadcast case (hub.go 89-96). -/
def Hub.broadcastTo (h : Hub) (message : Payload) (client : ClientId) : Except Panic Hub :=
  match (h.send client).trySend message with
  | .error e => .error e
  | .ok (some ch) => .ok { h with send := Function.update h.send client ch }
  | .ok none =>
    match (h.send client).close with
    | .error e => .error e
    | .ok ch => .ok { clients := h.clients.erase client,
                      send := Function.update h.send client ch }

/-- Body of `case message := <-h.broadcast` (hub.go 86-98): the loop over the
registry, visiting the clients in the order `order`. A key deleted before it
is reached is not produced by a Go `range`, hence the membership test. -/
def Hub.broadcast (h : Hub) (message : Payload) : List ClientId → Except Panic Hub
  | [] => .ok h
  | client :: rest =>
    if client ∈ h.clients then
      match h.broadcastTo message client with
      | .error e => .error e
      | .ok h1 => h1.broadcast message rest
    else h.broadcast message rest

/-- An iteration order of `range h.clients`: every key once. -/
def Hub.IsOrder (h : Hub) (order : List ClientId) : Prop :=
  order.Nodup ∧ ∀ c, c ∈ order ↔ c ∈ h.clients

instance (h : Hub) (order : List ClientId) : Decidable (h.IsOrder order) :=
  decidable_of_iff (order.Nodup ∧ order.toFinset = h.clients) (by
    unfold Hub.IsOrder
    constructor
    · rintro ⟨hn, he⟩
      exact ⟨hn, fun c => by rw [← he]; simp⟩
    · rintro ⟨hn, he⟩
      exact ⟨hn, by ext c; simp [he c]⟩)

/-- The register step for each client of `cs` in turn, as after that many
calls of `ServeWebSocket`. -/
def Hub.registerAll (h : Hub) (cs : List ClientId) : Hub :=
  cs.foldl (fun h c => (h.register c).1) h

/-- One receive of `writePump` (`for message := range c.send`, hub.go 130)
on the channel of `client`. -/
def Hub.writerRecv (h : Hub) (client : ClientId) : Hub :=
  { h with send := Function.update h.send client (h.send client).recv }

/-- States the hub passes through: from `newHub`, any sequence of register,
unregister and broadcast steps of `Hub.run` that do not panic, interleaved
with receives of the writers. The same client may be submitted any number of
times. -/
inductive Reachable : Hub → Prop where
  | init : Reachable newHub
  | register (h : Hub) (client : ClientId) :
      Reachable h → Reachable (h.register client).1
  | unregister (h h1 : Hub) (client : ClientId) :
      Reachable h → h.unregister client = .ok h1 → Reachable h1
  | broadcast (h h1 : Hub) (message : Payload) (order : List ClientId) :
      Reachable h → h.IsOrder order → h.broadcast message order = .ok h1 → Reachable h1
  | writerRecv (h : Hub) (client : ClientId) :
      Reachable h → Reachable (h.writerRecv client)

/-! ## server.go -/

/-- A Go `float64`, as its IEEE 754 binary64 bit pattern (below `2^64`); the
zero value `0.0` is the pattern `0`. -/
structure Float64 where
  bits : Nat
deriving DecidableEq, Repr

instance : Inhabited Float64 := ⟨⟨0⟩⟩

/-- Position of the leading one bit of `n` (0 for `n < 2`), for `n` below
`2 ^ fuel`. -/
def leadingBit : Nat → Nat → Nat
  | 0, _ => 0
  | fuel + 1, n => if 2 ≤ n then leadingBit fuel (n / 2) + 1 else 0

/-- Go conversion `float64(n)` of a `uint64`: the nearest binary64, ties to
the even mantissa. With `e` the position of the leading bit, the 53-bit
mantissa `q` is `n` shifted to that width; a round-up of an all-ones mantissa
carries into the exponent field by the addition. -/
def Float64.ofUint64 (n : Nat) : Float64 :=
  if n = 0 then ⟨0⟩
  else
    let e := leadingBit 64 n
    if e ≤ 52 then ⟨(e + 1023) * 2 ^ 52 + (n * 2 ^ (52 - e) - 2 ^ 52)⟩
    else
      let sh := e - 52
      let q := n / 2 ^ sh
      let r := n % 2 ^ sh
      let half := 2 ^ (sh - 1)
      let q1 := if half < r ∨ (r = half ∧ q % 2 = 1) then q + 1 else q
      ⟨(e + 1023) * 2 ^ 52 + (q1 - 2 ^ 52)⟩

/-- The natural number a bit pattern denotes, for a pattern that denotes
one: `(2^52 + M) * 2^(E - 1075)` for the exponent field `E` (normal, sign bit
clear) and the mantissa field `M`. -/
def Float64.toNat? (f : Float64) : Option Nat :=
  let E := f.bits / 2 ^ 52
  let M := f.bits % 2 ^ 52
  if f.bits = 0 then some 0
  else if E = 0 ∨ 2047 ≤ E then none
  else if 1075 ≤ E then some ((2 ^ 52 + M) * 2 ^ (E - 1075))
  else if (2 ^ 52 + M) % 2 ^ (1075 - E) = 0 then some ((2 ^ 52 + M) / 2 ^ (1075 - E))
  else none

/-- A Go `map[string]string`: its entries, no key twice. `set` keeps an entry
in place when the key is present and adds one otherwise; the map is read
with `get?`. -/
abbrev Labels := List (String × String)

/-- Go `m[k] = v`. -/
def Labels.set : Labels → String → String → Labels
  | [], k, v => [(k, v)]
  | (k1, v1) :: rest, k, v =>
    if k1 = k then (k1, v) :: rest else (k1, v1) :: Labels.set rest k v

/-- Go `v, ok := m[k]`. -/
def Labels.get? : Labels → String → Option String
  | [], _ => none
  | (k1, v1) :: rest, k => if k1 = k then some v1 else Labels.get? rest k

/-- Go `for k, v := range m { dst[k] = v }` into a fresh map; the entries
are visited in the order of the list. -/
def Labels.copy (m : Labels) : Labels :=
  m.foldl (fun dst kv => Labels.set dst kv.1 kv.2) []

namespace dto

/-- Modelled from the spec: the package `dto` (prometheus client_model) is
imported by server.go and is not part of the repository. `MetricType` is the
spec's `type ∈ {COUNTER,GAUGE,SUMMARY,HISTOGRAM}` together with the other
values of the enumeration, which the spec calls "other/unsupported type". -/
inductive MetricType where
  | COUNTER
  | GAUGE
  | SUMMARY
  | UNTYPED
  | HISTOGRAM
  | GAUGE_HISTOGRAM
deriving DecidableEq, Repr

/-- Modelled from the spec: one entry of a point's `labels`; `dto.LabelPair`
is not part of the repository. A scalar field is read only through its
getter, so an unset field is its zero value. -/
structure LabelPair where
  Name : String
  Value : String
deriving DecidableEq, Repr

/-- Modelled from the spec: the scalar value-payload of a counter. -/
structure Counter where
  Value : Float64
deriving DecidableEq, Repr

/-- Modelled from the spec: the scalar value-payload of a gauge. -/
structure Gauge where
  Value : Float64
deriving DecidableEq, Repr

/-- Modelled from the spec: one of the `quantiles` of a summary. -/
structure Quantile where
  Quantile_ : Float64
  Value : Float64
deriving DecidableEq, Repr

/-- Modelled from the spec: the value-payload `{sum, count, quantiles}`;
`SampleCount` is a `uint64`. -/
structure Summary where
  SampleCount : Nat
  SampleSum : Float64
  Quantile : List Quantile
deriving DecidableEq, Repr

/-- Modelled from the spec: one of the `buckets:[{upper_bound,
cumulative_count}]`; `CumulativeCount` is a `uint64`. -/
structure Bucket where
  CumulativeCount : Nat
  UpperBound : Float64
deriving DecidableEq, Repr

/-- Modelled from the spec: the value-payload `{sum, count, buckets}`;
`SampleCount` is a `uint64`. -/
structure Histogram where
  SampleCount : Nat
  SampleSum : Float64
  Bucket : List Bucket
deriving DecidableEq, Repr

/-- Modelled from the spec: a `MetricPoint`, `dto.Metric`: its label pairs
and one optional message per kind of value-payload (a nil pointer is
`none`). -/
structure Metric where
  Label : List LabelPair
  Gauge : Option Gauge
  Counter : Option Counter
  Summary : Option Summary
  Histogram : Option Histogram
deriving DecidableEq, Repr

/-- Modelled from the spec: a `MetricFamily`, `{name, help, type, metrics}`.
The scalar fields are read through getters only; an unset `Type` reads as
COUNTER, the zero value of the enumeration. -/
structure MetricFamily where
  Name : String
  Help : String
  Type_ : MetricType
  Metric : List Metric
deriving DecidableEq, Repr

/-- Modelled from the spec: the getters of `dto`, which return the zero
value on a nil receiver. -/
def Metric.GetCounterValue (m : Metric) : Float64 :=
  match m.Counter with
  | some c => c.Value
  | none => ⟨0⟩

/-- Modelled from the spec: `m.GetGauge().GetValue()`, zero on nil. -/
def Metric.GetGaugeValue (m : Metric) : Float64 :=
  match m.Gauge with
  | some g => g.Value
  | none => ⟨0⟩

/-- Modelled from the spec: `m.GetSummary().GetSampleSum()`, zero on nil. -/
def Metric.GetSummarySampleSum (m : Metric) : Float64 :=
  match m.Summary with
  | some s => s.SampleSum
  | none => ⟨0⟩

/-- Modelled from the spec: `m.GetSummary().GetSampleCount()`, zero on nil. -/
def Metric.GetSummarySampleCount (m : Metric) : Nat :=
  match m.Summary with
  | some s => s.SampleCount
  | none => 0

/-- Modelled from the spec: `m.GetHistogram().GetSampleSum()`, zero on nil. -/
def Metric.GetHistogramSampleSum (m : Metric) : Float64 :=
  match m.Histogram with
  | some h => h.SampleSum
  | none => ⟨0⟩

/-- Modelled from the spec: `m.GetHistogram().GetSampleCount()`, zero on nil. -/
def Metric.GetHistogramSampleCount (m : Metric) : Nat :=
  match m.Histogram with
  | some h => h.SampleCount
  | none => 0

/-- Modelled from the spec: `m.GetHistogram().GetBucket()`, empty on nil. -/
def Metric.GetHistogramBucket (m : Metric) : List Bucket :=
  match m.Histogram with
  | some h => h.Bucket
  | none => []

end dto

/-- The struct `Metric` of server.go (18-24). -/
structure Metric where
  Name : String
  Type_ : String
  Help : String
  Labels : Labels
  Value : Float64
deriving DecidableEq, Repr

/-- Function `metricTypeToString` of server.go (283-296). -/
def metricTypeToString (metricType : dto.MetricType) : String :=
  match metricType with
  | .COUNTER => "counter"
  | .GAUGE => "gauge"
  | .SUMMARY => "summary"
  | .HISTOGRAM => "histogram"
  | _ => "unknown"

/-- Lines 209-212 of `collectMetrics`: the label pairs of a point put into a
fresh map, in order. -/
def extractLabels (m : dto.Metric) : Labels :=
  m.Label.foldl (fun labels lp => Labels.set labels lp.Name lp.Value) []

/-- Lines 248-260: the `_bucket` sample of one bucket. `sprintfG` stands for
`fmt.Sprintf("%g", ·)`. -/
def bucketMetric (sprintfG : Float64 → String) (mf : dto.MetricFamily) (labels : Labels)
    (bucket : dto.Bucket) : Metric :=
  let bucketLabels := Labels.set (Labels.copy labels) "le" (sprintfG bucket.UpperBound)
  { Name := mf.Name ++ "_bucket"
    Type_ := metricTypeToString mf.Type_
    Help := mf.Help
    Labels := bucketLabels
    Value := Float64.ofUint64 bucket.CumulativeCount }

/-- The `switch mf.GetType()` of `collectMetrics` (216-265) for one point:
the value it assigns and the list `metrics` after its appends, or `none` for
the `continue` of the default branch. -/
def extractValue (sprintfG : Float64 → String) (mf : dto.MetricFamily) (labels : Labels)
    (metrics : List Metric) (m : dto.Metric) : Option (Float64 × List Metric) :=
  let metricType := metricTypeToString mf.Type_
  match mf.Type_ with
  | .COUNTER => some (m.GetCounterValue, metrics)
  | .GAUGE => some (m.GetGaugeValue, metrics)
  | .SUMMARY =>
    let value := m.GetSummarySampleSum
    let countMetric : Metric :=
      { Name := mf.Name ++ "_count"
        Type_ := metricType
        Help := mf.Help
        Labels := labels
        Value := Float64.ofUint64 m.GetSummarySampleCount }
    some (value, metrics ++ [countMetric])
  | .HISTOGRAM =>
    let value := m.GetHistogramSampleSum
    let countMetric : Metric :=
      { Name := mf.Name ++ "_count"
        Type_ := metricType
        Help := mf.Help
        Labels := labels
        Value := Float64.ofUint64 m.GetHistogramSampleCount }
    let metrics := metrics ++ [countMetric]
    let metrics := m.GetHistogramBucket.foldl
      (fun metrics bucket => metrics ++ [bucketMetric sprintfG mf labels bucket]) metrics
    some (value, metrics)
  | _ => none

/-- Body of `for _, m := range mf.GetMetric()` (207-276): the list `metrics`
after the point `m` of the family `mf` has been processed. -/
def collectMetric (sprintfG : Float64 → String) (mf : dto.MetricFamily)
    (metrics : List Metric) (m : dto.Metric) : List Metric :=
  let labels := extractLabels m
  match extractValue sprintfG mf labels metrics m with
  | none => metrics
  | some (value, metrics) =>
    metrics ++ [{ Name := mf.Name
                  Type_ := metricTypeToString mf.Type_
                  Help := mf.Help
                  Labels := labels
                  Value := value }]

/-- Function `Server.collectMetrics` (196-280). Its input is what
`s.config.Registry.Gather()` returned: the families and the error, if any.
The Go result `metrics` is a nil slice exactly when the list is empty. -/
def collectMetrics (sprintfG : Float64 → String)
    (mfs : List dto.MetricFamily) (err : Option String) : Except String (List Metric) :=
  match err with
  | some e => .error ("error gathering metrics: " ++ e)
  | none =>
    .ok (mfs.foldl (fun metrics mf => mf.Metric.foldl (collectMetric sprintfG mf) metrics) [])

/-- States of the running program: as `Reachable`, but a client is submitted
for registration once, by the `ServeWebSocket` call that builds it
(hub.go 110-117); `made` is the set of clients built so far. -/
inductive Running : Finset ClientId → Hub → Prop where
  | init : Running ∅ newHub
  | serveWebSocket (made : Finset ClientId) (h : Hub) (client : ClientId) :
      Running made h → client ∉ made → Running (insert client made) (h.register client).1
  | unregister (made : Finset ClientId) (h h1 : Hub) (client : ClientId) :
      Running made h → h.unregister client = .ok h1 → Running made h1
  | broadcast (made : Finset ClientId) (h h1 : Hub) (message : Payload)
      (order : List ClientId) :
      Running made h → h.IsOrder order → h.broadcast message order = .ok h1 →
      Running made h1
  | writerRecv (made : Finset ClientId) (h : Hub) (client : ClientId) :
      Running made h → Running made (h.writerRecv client)

/-- Hub state after a broadcast of `message`, written without the loop: a
registered client with room in its queue gets the message, a registered
client without room is closed and leaves the registry. -/
def Hub.afterBroadcast (h : Hub) (message : Payload) (visited : ClientId → Prop)
    [DecidablePred visited] : Hub :=
  { clients := h.clients.filter (fun c => ¬ visited c ∨ (h.send c).buf.length < sendCap)
    send := fun c =>
      if visited c then
        if (h.send c).buf.length < sendCap then
          { buf := (h.send c).buf ++ [message], closed := false }
        else { buf := (h.send c).buf, closed := true }
      else h.send c }

/-- Modelled from the spec: the names of the values of `dto.MetricType`, in
the upper case the spec writes them in. -/
def dto.MetricType.enumName (t : dto.MetricType) : String :=
  match t with
  | .COUNTER => "COUNTER"
  | .GAUGE => "GAUGE"
  | .SUMMARY => "SUMMARY"
  | .UNTYPED => "UNTYPED"
  | .HISTOGRAM => "HISTOGRAM"
  | .GAUGE_HISTOGRAM => "GAUGE_HISTOGRAM"

/-- A string with every letter in lower case. -/
def lowerCase (s : String) : String :=
  String.mk (s.data.map Char.toLower)

/-- Whether a `float64` is neither an infinity nor a NaN: its exponent field
(bits 52..62) is not all ones. -/
def Float64.isFinite (f : Float64) : Bool :=
  (f.bits / 2 ^ 52) % 2048 != 2047

/-- A member value in the JSON object that `encoding/json` writes for a
`Metric`: a string, a number, or the object of a `map[string]string`. -/
inductive JsonValue where
  | string (s : String)
  | number (f : Float64)
  | object (members : List (String × String))
deriving DecidableEq, Repr

/-- A JSON object: its members, in the order they are written. -/
abbrev JsonObject := List (String × JsonValue)

/-- The JSON text that `json.Marshal` writes for a `[]Metric`: `null` for a
nil slice, else an array of objects. -/
inductive JsonText where
  | null
  | array (objects : List JsonObject)
deriving DecidableEq, Repr

/-- One entry put in its place among entries sorted by key. -/
def insertByKey (kv : String × String) : List (String × String) → List (String × String)
  | [] => [kv]
  | e :: rest =>
    if kv.1.data < e.1.data then kv :: e :: rest else e :: insertByKey kv rest

/-- The entries of a map in the order `encoding/json` writes them: sorted by
key. -/
def sortByKey (m : Labels) : List (String × String) :=
  m.foldr insertByKey []

/-- The object `json.Marshal` writes for one `Metric`, by the struct tags of
server.go 18-24: `name`, `type`, `help` (omitempty: left out when the string
is empty), `labels` (omitempty: left out when the map has no entry), `value`.
A value that is NaN or an infinity is an `UnsupportedValueError`. -/
def marshalMetric (m : Metric) : Except String JsonObject :=
  if m.Value.isFinite then
    .ok ([("name", JsonValue.string m.Name), ("type", JsonValue.string m.Type_)] ++
         (if m.Help = "" then [] else [("help", JsonValue.string m.Help)]) ++
         (if m.Labels.length = 0 then [] else [("labels", JsonValue.object (sortByKey m.Labels))]) ++
         [("value", JsonValue.number m.Value)])
  else .error "json: unsupported value"

/-- The objects of the elements of a slice, in order; the first error ends
the encoding. -/
def marshalElements : List Metric → Except String (List JsonObject)
  | [] => .ok []
  | m :: rest =>
    match marshalMetric m with
    | .error e => .error e
    | .ok o =>
      match marshalElements rest with
      | .error e => .error e
      | .ok os => .ok (o :: os)

/-- The call `json.Marshal(metrics)` of server.go 185 on a result of
`collectMetrics`, which is a nil slice exactly when it is empty. -/
def marshalMetrics (metrics : List Metric) : Except String JsonText :=
  match metrics with
  | [] => .ok JsonText.null
  | _ :: _ =>
    match marshalElements metrics with
    | .error e => .error e
    | .ok os => .ok (JsonText.array os)

/-- One iteration of `for range ticker.C` in `broadcastMetrics` (server.go
178-192), on what `Gather` returned: `some jsonData` when
`s.hub.Broadcast(jsonData)` is called, `none` when the iteration ends with
`continue`. `encode` gives the bytes of a JSON text. -/
def broadcastMetricsTick (sprintfG : Float64 → String) (encode : JsonText → Payload)
    (mfs : List dto.MetricFamily) (err : Option String) : Option Payload :=
  match collectMetrics sprintfG mfs err with
  | .error _ => none
  | .ok metrics =>
    match marshalMetrics metrics with
    | .error _ => none
    | .ok jsonData => some (encode jsonData)

/-- The hub after one iteration of `broadcastMetrics`: the broadcast step of
the loop when `Hub.Broadcast` was called, no step otherwise. -/
def Hub.afterTick (h : Hub) (sent : Option Payload) (order : List ClientId) :
    Except Panic Hub :=
  match sent with
  | none => .ok h
  | some message => h.broadcast message order

/-- Value of `websocket.TextMessage`. -/
def TextMessage : Nat := 1

/-- What `writePump` does outside its own channel. -/
inductive WriterEffect where
  /-- The call `c.conn.WriteMessage(messageType, data)`. -/
  | writeMessage (client : ClientId) (messageType : Nat) (data : Payload)
  /-- The deferred call `c.conn.Close()`. -/
  | close (client : ClientId)
  /-- The deferred send `c.hub.unregister <- c`. -/
  | unregister (client : ClientId)
deriving DecidableEq, Repr

/-- The loop `for message := range c.send` of `writePump` (hub.go 130-136) on
the messages `msgs` waiting in the channel, oldest first; `k` counts the
writes done before and `writeFails k` tells whether the write number `k`
returns an error. A failed write ends the function, and so does the end of
the messages of a closed channel; the deferred calls follow. On an open
channel without messages the loop blocks. -/
def writePumpLoop (client : ClientId) (writeFails : Nat → Bool) (closed : Bool) :
    Nat → List Payload → List WriterEffect
  | _, [] =>
    if closed then [WriterEffect.close client, WriterEffect.unregister client] else []
  | k, message :: rest =>
    WriterEffect.writeMessage client TextMessage message ::
      (if writeFails k then [WriterEffect.close client, WriterEffect.unregister client]
       else writePumpLoop client writeFails closed (k + 1) rest)

/-- Function `Client.writePump` (hub.go 124-137) run on the present contents
of the channel `ch` of `client`. -/
def writePump (client : ClientId) (writeFails : Nat → Bool) (ch : Chan) : List WriterEffect :=
  writePumpLoop client writeFails ch.closed 0 ch.buf

/-- A positive real `x` with the bounds of the reals that round to the same
`float64`, all over one denominator: `x / den`, `lo / den`, `hi / den`.
`inclusive` tells whether the bounds themselves round to it (even
mantissa). -/
structure RoundingInterval where
  x : Nat
  lo : Nat
  hi : Nat
  den : Nat
  inclusive : Bool
deriving DecidableEq, Repr

/-- The interval of a finite non-zero `float64` with mantissa `mant` (the
implicit bit included) and exponent field `expField`, as `roundShortest` of
Go `strconv` computes it. The value is `mant * 2^(e - 52)` with `e` the
unbiased exponent; in units of `2^(e - 54)` it is `4 * mant`, the upper bound
is halfway to the next float, `4 * mant + 2`, and the lower bound is halfway
to the previous float, `4 * mant - 2`, or `4 * mant - 1` when the mantissa is
the least of its binade (the previous float is then half as far). -/
def roundingInterval (mant expField : Nat) : RoundingInterval :=
  let e : Int := (if expField = 0 then 1 else (expField : Int)) - 1023
  let sh : Int := e - 54
  let up := 2 ^ sh.toNat
  let lo := if 2 ^ 52 < mant ∨ expField ≤ 1 then 4 * mant - 2 else 4 * mant - 1
  { x := 4 * mant * up
    lo := lo * up
    hi := (4 * mant + 2) * up
    den := 2 ^ (-sh).toNat
    inclusive := mant % 2 == 0 }

/-- Number of decimal digits of `n` (0 for 0), for `n` below `10 ^ fuel`. -/
def decimalLen : Nat → Nat → Nat
  | 0, _ => 0
  | fuel + 1, n => if n = 0 then 0 else decimalLen fuel (n / 10) + 1

/-- Decimal digits of `n`, most significant first (none for 0), for `n`
below `10 ^ fuel`. -/
def decimalDigits : Nat → Nat → List Nat
  | 0, _ => []
  | fuel + 1, n => if n = 0 then [] else decimalDigits fuel (n / 10) ++ [n % 10]

/-- For `0 < a / d < 1`: the number of zeros between the decimal point and
the first non-zero digit, at most `fuel`. -/
def leadingZeros : Nat → Nat → Nat → Nat
  | 0, _, _ => 0
  | fuel + 1, a, d => if a * 10 < d then leadingZeros fuel (a * 10) d + 1 else 0

/-- Position of the decimal point of `x / den > 0`: the `dp` with
`10^(dp-1) ≤ x / den < 10^dp`. A `float64` is below `10^309` and, when not
zero, above `10^(-324)`. -/
def decimalPoint (x den : Nat) : Int :=
  if den ≤ x then (decimalLen 310 (x / den) : Int) else - (leadingZeros 330 x den : Int)

/-- The digits kept when the decimal expansion of `x / den` is cut after `n`
digits, if the cut number or the next number up on that grid is within the
bounds: the integer `w` with the result `w * 10^(dp - n)`. When both are
within the bounds the nearer is taken, the even one on a tie; this is the
body of the digit loop of `roundShortest`. -/
def roundAt (b : RoundingInterval) (dp : Int) (n : Nat) : Option Nat :=
  let s : Int := dp - n
  let sl := 10 ^ s.toNat
  let sr := 10 ^ (-s).toNat
  let v := (b.x * sr) / (b.den * sl)
  let okdown := if b.inclusive then b.lo * sr ≤ v * sl * b.den else b.lo * sr < v * sl * b.den
  let okup :=
    if b.inclusive then (v + 1) * sl * b.den ≤ b.hi * sr else (v + 1) * sl * b.den < b.hi * sr
  let twiceRest := 2 * (b.x * sr - v * sl * b.den)
  let unit := sl * b.den
  let up := unit < twiceRest ∨ (twiceRest = unit ∧ 0 < n ∧ v % 2 = 1)
  if okdown ∧ okup then some (if up then v + 1 else v)
  else if okdown then some v
  else if okup then some (v + 1)
  else none

/-- The least number of digits `n`, from `n` on, at which `roundAt` gives a
result, with that result. -/
def shortestFrom (b : RoundingInterval) (dp : Int) : Nat → Nat → Option (Nat × Nat)
  | 0, _ => none
  | fuel + 1, n =>
    match roundAt b dp n with
    | some w => some (w, n)
    | none => shortestFrom b dp fuel (n + 1)

/-- A decimal number `0.d₁d₂…dₙ × 10^dp`, the `decimal` of Go `strconv`. -/
structure Decimal where
  d : List Nat
  dp : Int
deriving DecidableEq, Repr

/-- The shortest decimal that rounds to the finite non-zero `float64` with
mantissa `mant` and exponent field `expField`: what `strconv` computes for
the precision `-1`. The search ends within 17 digits
(`shortestFrom_total`), well inside its bound of 800. A result `10^n` (all
nines rounded up) is the single digit 1 one place higher. -/
def shortestDecimal (mant expField : Nat) : Decimal :=
  let b := roundingInterval mant expField
  let dp := decimalPoint b.x b.den
  match shortestFrom b dp 800 0 with
  | none => { d := [], dp := 0 }
  | some (w, n) =>
    if w = 10 ^ n then { d := [1], dp := dp + 1 } else { d := decimalDigits 800 w, dp := dp }

/-- The character of a decimal digit. -/
def digitChar (d : Nat) : Char :=
  Char.ofNat (48 + d)

/-- Function `fmtF` of `strconv` (`%f`): the integer part, padded with zeros,
then a point and `prec` digits when `prec > 0`. -/
def fmtF (d : Decimal) (prec : Nat) : List Char :=
  let intPart :=
    if 0 < d.dp then
      (d.d.take d.dp.toNat).map digitChar ++
        List.replicate (d.dp.toNat - d.d.length) '0'
    else ['0']
  let fracPart :=
    if 0 < prec then
      '.' :: (List.range prec).map (fun (i : Nat) =>
        let j : Int := d.dp + (i : Int)
        if 0 ≤ j ∧ j.toNat < d.d.length then digitChar (d.d.getD j.toNat 0) else '0')
    else []
  intPart ++ fracPart

/-- Function `fmtE` of `strconv` (`%e`): the first digit, a point and `prec`
more digits when `prec > 0`, then `e`, the sign of the exponent and at least
two digits of it. -/
def fmtE (d : Decimal) (prec : Nat) : List Char :=
  let first := if d.d.length ≠ 0 then digitChar (d.d.getD 0 0) else '0'
  let more :=
    if 0 < prec then
      '.' :: (((d.d.drop 1).take prec).map digitChar ++
        List.replicate (prec - (d.d.length - 1)) '0')
    else []
  let e : Int := if d.d.length = 0 then 0 else d.dp - 1
  let sign := if e < 0 then '-' else '+'
  let a := e.natAbs
  let expDigits :=
    if a < 10 then ['0', digitChar a]
    else if a < 100 then [digitChar (a / 10), digitChar (a % 10)]
    else [digitChar (a / 100), digitChar (a / 10 % 10), digitChar (a % 10)]
  first :: more ++ ['e', sign] ++ expDigits

/-- The format `%g` of `strconv` at the shortest precision, on the digits of
the absolute value: `%e` when the decimal exponent is below -4 or at least 6
(with one digit fewer than the digits after the point), else `%f` with the
digits that are there. -/
def fmtG (d : Decimal) : List Char :=
  let e : Int := d.dp - 1
  if e < -4 ∨ 6 ≤ e then fmtE d (d.d.length - 1)
  else fmtF d ((d.d.length : Int) - d.dp).toNat

/-- Go `fmt.Sprintf("%g", f)` for a `float64`: `+Inf`, `-Inf`, `NaN`, or the
sign and the `%g` format of the shortest decimal that rounds to `f` (no
digits for a zero). -/
def sprintfG (f : Float64) : String :=
  let neg := (f.bits / 2 ^ 63) % 2 = 1
  let expField := (f.bits / 2 ^ 52) % 2048
  let frac := f.bits % 2 ^ 52
  if expField = 2047 then
    if frac ≠ 0 then "NaN" else if neg then "-Inf" else "+Inf"
  else
    let mant := if expField = 0 then frac else frac + 2 ^ 52
    let d := if mant = 0 then { d := [], dp := 0 } else shortestDecimal mant expField
    String.mk ((if neg then ['-'] else []) ++ fmtG d)

/-- A goroutine started by a `go` statement of the package. -/
inductive Goroutine where
  /-- The statement `go h.run()`, the control loop of the hub. -/
  | hubRun
  /-- The statement `go s.broadcastMetrics()`. -/
  | broadcastMetrics
deriving DecidableEq, Repr

/-- The goroutines that a call of `newHub` starts (hub.go 47-56): its one `go
h.run()`. -/
def newHubStarts : List Goroutine :=
  [Goroutine.hubRun]

/-- The goroutines that a call of `newServer` starts, in order (server.go
36-75): those of `hub := newHub()`, then `go hub.run()` on the same hub, then
`go s.broadcastMetrics()`. No statement of `newServer` depends on the
configuration before these. -/
def newServerStarts : List Goroutine :=
  newHubStarts ++ [Goroutine.hubRun] ++ [Goroutine.broadcastMetrics]

/-- Digits of a decimal numeral read as a number; `none` when there is no
digit or a character is not a digit. -/
def parseDigits (cs : List Char) : Option Nat :=
  if cs = [] then none
  else cs.foldl (fun acc c =>
    match acc with
    | none => none
    | some n => if c.isDigit then some (n * 10 + (c.toNat - 48)) else none) (some 0)

/-- Go `strconv.Atoi` where `int` has 64 bits: an optional sign and decimal
digits, within the range of `int64`; `none` is a returned error. -/
def Atoi (s : String) : Option Int :=
  match s.data with
  | '-' :: rest =>
    match parseDigits rest with
    | some n => if n ≤ 2 ^ 63 then some (- (n : Int)) else none
    | none => none
  | '+' :: rest =>
    match parseDigits rest with
    | some n => if n < 2 ^ 63 then some (n : Int) else none
    | none => none
  | cs =>
    match parseDigits cs with
    | some n => if n < 2 ^ 63 then some (n : Int) else none
    | none => none

/-- A Go `int64` result: the integer `x` wrapped into `-2^63 .. 2^63 - 1`. -/
def wrapInt64 (x : Int) : Int :=
  (x + 2 ^ 63) % 2 ^ 64 - 2 ^ 63

/-- Constant `time.Millisecond`, in nanoseconds, the unit of
`time.Duration`. -/
def Millisecond : Int := 1000000

/-- Constant `time.Second`, in nanoseconds. -/
def Second : Int := 1000000000

/-- The struct `BasicAuth` of prommy.go. -/
structure BasicAuth where
  Username : String
  Password : String
deriving DecidableEq, Repr

/-- The fields of the struct `Config` of prommy.go that `applyEnvConfig`
reads or writes (`Registry` and `StaticFS` are not among them).
`TickerInterval` is a `time.Duration`, an `int64` of nanoseconds; a nil
`BasicAuth` or `Dashboard` is `none`; `D` is the type of a dashboard
layout. -/
structure Config (D : Type) where
  TickerInterval : Int
  BasicAuth : Option BasicAuth
  Dashboard : Option D
  PrefixURI : String

/-- Function `applyEnvConfig` of prommy.go (192-224). `getenv` is
`os.Getenv` (the empty string for an unset variable) and `unmarshal` is
`json.Unmarshal` into a dashboard layout (`none` for an error, `some none`
for a nil layout). -/
def applyEnvConfig {D : Type} (getenv : String → String)
    (unmarshal : String → Option (Option D)) (cfg : Config D) : Config D :=
  let username := getenv "PROMMY_BASIC_AUTH_USER"
  let password := getenv "PROMMY_BASIC_AUTH_PASS"
  let cfg :=
    if username ≠ "" ∧ password ≠ "" ∧ cfg.BasicAuth = none then
      { cfg with BasicAuth := some { Username := username, Password := password } }
    else cfg
  let intervalStr := getenv "PROMMY_INTERVAL"
  let cfg :=
    if intervalStr ≠ "" then
      match Atoi intervalStr with
      | some ms =>
        if ms > 0 then { cfg with TickerInterval := wrapInt64 (ms * Millisecond) } else cfg
      | none => cfg
    else cfg
  let prefixURI := getenv "PROMMY_PREFIX_URI"
  let cfg :=
    if prefixURI ≠ "" ∧ cfg.PrefixURI = "" then { cfg with PrefixURI := prefixURI } else cfg
  match cfg.Dashboard with
  | some _ => cfg
  | none =>
    let dashEnv := getenv "PROMMY_DASHBOARD"
    if dashEnv ≠ "" then
      match unmarshal dashEnv with
      | some dashboard => { cfg with Dashboard := dashboard }
      | none => cfg
    else cfg

/-- A hub whose registry is the clients 0..63, all queues empty and open. -/
def fullHub : Hub :=
  { clients := Finset.range 64, send := newHub.send }

/-- A hub with two registered clients: the queue of client 1 is empty, the
queue of client 2 holds 256 messages; both are open. -/
def twoClientHub : Hub :=
  { clients := {1, 2}
    send := fun c => if c = 2 then { buf := List.replicate 256 [], closed := false }
                     else { buf := [], closed := false } }

/-- The result of `fmt.Sprintf("%g", ·)` on the float `+Inf`; used at that
value only. -/
def sprintfGInf : Float64 → String :=
  fun _ => "+Inf"

/-- A histogram point: label `path="/"`, 10 observations of sum 3.2
(bits `0x400999999999999A`), one bucket of upper bound `+Inf`
(bits `0x7FF0000000000000`) and cumulative count 10. -/
def histogramPoint : dto.Metric :=
  { Label := [{ Name := "path", Value := "/" }]
    Gauge := none
    Counter := none
    Summary := none
    Histogram := some { SampleCount := 10
                        SampleSum := ⟨0x400999999999999A⟩
                        Bucket := [{ CumulativeCount := 10, UpperBound := ⟨0x7FF0000000000000⟩ }] } }

/-- A histogram family `h` holding `histogramPoint`. -/
def histogramFamily : dto.MetricFamily :=
  { Name := "h", Help := "latency", Type_ := .HISTOGRAM, Metric := [histogramPoint] }

/-- A summary point: no labels, 4 observations of sum 3.2, one quantile. -/
def summaryPoint : dto.Metric :=
  { Label := []
    Gauge := none
    Counter := none
    Summary := some { SampleCount := 4
                      SampleSum := ⟨0x400999999999999A⟩
                      Quantile := [{ Quantile_ := ⟨0x3FE0000000000000⟩, Value := ⟨0⟩ }] }
    Histogram := none }

/-- A summary family `s` holding `summaryPoint`. -/
def summaryFamily : dto.MetricFamily :=
  { Name := "s", Help := "sizes", Type_ := .SUMMARY, Metric := [summaryPoint] }

/-- A counter point of value 1.0 with the label pair `code="200"` given
twice, the second time as `code="404"`. -/
def counterPoint : dto.Metric :=
  { Label := [{ Name := "code", Value := "200" }, { Name := "code", Value := "404" }]
    Gauge := none
    Counter := some { Value := ⟨0x3FF0000000000000⟩ }
    Summary := none
    Histogram := none }

/-- A counter family `c` holding `counterPoint`. -/
def counterFamily : dto.MetricFamily :=
  { Name := "c", Help := "requests", Type_ := .COUNTER, Metric := [counterPoint] }

/-- A family of type UNTYPED holding `counterPoint`. -/
def untypedFamily : dto.MetricFamily :=
  { Name := "u", Help := "", Type_ := .UNTYPED, Metric := [counterPoint] }

/-- A counter family `c` with an empty help text, holding one point of value
1.0 without labels. -/
def bareCounterFamily : dto.MetricFamily :=
  { Name := "c", Help := "", Type_ := .COUNTER
    Metric := [{ Label := [], Gauge := none, Counter := some { Value := ⟨0x3FF0000000000000⟩ },
                 Summary := none, Histogram := none }] }

/-- A gauge family `g` holding one point whose value is a NaN
(bits `0x7FF8000000000000`). -/
def nanGaugeFamily : dto.MetricFamily :=
  { Name := "g", Help := "ratio", Type_ := .GAUGE
    Metric := [{ Label := [], Gauge := some { Value := ⟨0x7FF8000000000000⟩ }, Counter := none,
                 Summary := none, Histogram := none }] }

/-- A stand-in for the byte encoding of a JSON text: one byte telling `null`
from an array. -/
def encodeTag : JsonText → Payload
  | .null => [0]
  | .array _ => [1]

/-- An environment where only `PROMMY_INTERVAL` is set, to `value`. -/
def intervalEnv (value : String) : String → String :=
  fun name => if name = "PROMMY_INTERVAL" then value else ""

/-- The configuration `&Config{TickerInterval: time.Second}` of
`TestEnvVarConfig`. -/
def testConfig : Config Unit :=
  { TickerInterval := Second, BasicAuth := none, Dashboard := none, PrefixURI := "" }

/-- The hub after client 5 was served and `k` broadcasts of the empty payload
were queued for it and not yet written: client 5 is registered, its queue is
open and holds `k` payloads. -/
def queuedHub (k : Nat) : Hub :=
  { clients := {5}
    send := fun c => if c = 5 then { buf := List.replicate k [], closed := false }
                     else { buf := [], closed := false } }

/-! ## Properties of the hub -/

theorem Hub.ext_fields {h1 h2 : Hub} (hc : h1.clients = h2.clients)
    (hs : ∀ c, h1.send c = h2.send c) : h1 = h2 := by
  cases h1; cases h2
  simp only [Hub.mk.injEq]
  exact ⟨hc, funext hs⟩

theorem Hub.unregister_clients_subset {h h1 : Hub} {client : ClientId}
    (hu : h.unregister client = .ok h1) : h1.clients ⊆ h.clients := by
  unfold Hub.unregister at hu
  split at hu
  · split at hu
    · cases hu
    · cases hu
      exact Finset.erase_subset _ _
  · cases hu
    exact Finset.Subset.refl _

theorem Hub.broadcastTo_clients_subset {h h1 : Hub} {message : Payload} {client : ClientId}
    (hb : h.broadcastTo message client = .ok h1) : h1.clients ⊆ h.clients := by
  unfold Hub.broadcastTo at hb
  split at hb
  · cases hb
  · cases hb
    exact Finset.Subset.refl _
  · split at hb
    · cases hb
    · cases hb
      exact Finset.erase_subset _ _

theorem Hub.broadcast_clients_subset (message : Payload) :
    ∀ (order : List ClientId) (h h1 : Hub),
      h.broadcast message order = .ok h1 → h1.clients ⊆ h.clients := by
  intro order
  induction order with
  | nil =>
    intro h h1 hb
    simp only [Hub.broadcast] at hb
    cases hb
    exact Finset.Subset.refl _
  | cons c rest ih =>
    intro h h1 hb
    simp only [Hub.broadcast] at hb
    split at hb
    · split at hb
      · cases hb
      · rename_i h2 hto
        exact (ih h2 h1 hb).trans (Hub.broadcastTo_clients_subset hto)
    · exact ih h h1 hb

theorem Reachable.registerAll :
    ∀ (cs : List ClientId) (h : Hub), Reachable h → Reachable (h.registerAll cs) := by
  intro cs
  induction cs with
  | nil => intro h hr; exact hr
  | cons c rest ih =>
    intro h hr
    exact ih _ (Reachable.register h c hr)

/-- C1. In every state reachable from `newHub` by register, unregister and
broadcast steps of `Hub.run` (with receives of the writers in between), the
registry holds at most `maxConnections` = 64 clients. -/
theorem registry_card_le_maxConnections (h : Hub) (hr : Reachable h) :
    h.clients.card ≤ maxConnections := by
  induction hr with
  | init => simp [newHub]
  | register h client _ ih =>
    unfold Hub.register
    split
    · exact ih
    · rename_i hlt
      have h1 : (insert client h.clients).card ≤ h.clients.card + 1 :=
        Finset.card_insert_le _ _
      simp only [ge_iff_le, not_le] at hlt
      show (insert client h.clients).card ≤ maxConnections
      omega
  | unregister h h1 client _ hu ih =>
    exact (Finset.card_le_card (Hub.unregister_clients_subset hu)).trans ih
  | broadcast h h1 message order _ _ hb ih =>
    exact (Finset.card_le_card (Hub.broadcast_clients_subset message order h h1 hb)).trans ih
  | writerRecv h client _ ih => exact ih

/-- C1, at the state after 65 register steps, for the clients 0..64, on a
new hub. -/
theorem registry_card_le_maxConnections_witness :
    Reachable (newHub.registerAll (List.range 65)) ∧
    (newHub.registerAll (List.range 65)).clients.card ≤ maxConnections :=
  ⟨Reachable.registerAll (List.range 65) newHub Reachable.init,
   registry_card_le_maxConnections _
     (Reachable.registerAll (List.range 65) newHub Reachable.init)⟩

/-- C2. When the registry holds 64 clients, the register step for `client`
leaves the hub state as it is (same members, same queues, none closed) and
its only effects are on the transport of `client`: the close frame with code
1013 and the capacity reason, then `conn.Close()`. -/
theorem register_at_capacity (h : Hub) (client : ClientId)
    (hfull : h.clients.card = maxConnections) :
    h.register client =
      (h, [ConnEffect.writeControl client CloseMessage 1013
             "Maximum connections reached, try again later",
           ConnEffect.close client]) := by
  unfold Hub.register
  rw [if_pos (by omega)]

/-- C2, at `fullHub` and client 64. -/
theorem register_at_capacity_witness :
    fullHub.clients.card = maxConnections ∧
    fullHub.register 64 =
      (fullHub, [ConnEffect.writeControl 64 CloseMessage 1013
             "Maximum connections reached, try again later",
           ConnEffect.close 64]) :=
  ⟨by simp [fullHub, maxConnections],
   register_at_capacity fullHub 64 (by simp [fullHub, maxConnections])⟩

theorem Hub.broadcast_visit (message : Payload) :
    ∀ (l : List ClientId) (h : Hub), l.Nodup →
      (∀ c ∈ l, c ∈ h.clients ∧ (h.send c).closed = false) →
      h.broadcast message l = .ok (h.afterBroadcast message (fun c => c ∈ l)) := by
  intro l
  induction l with
  | nil =>
    intro h _ _
    simp only [Hub.broadcast]
    congr 1
    apply Hub.ext_fields
    · simp [Hub.afterBroadcast]
    · intro c
      simp [Hub.afterBroadcast]
  | cons a rest ih =>
    intro h hnd hall
    have ha := hall a (List.mem_cons_self _ _)
    have hnotin : a ∉ rest := (List.nodup_cons.mp hnd).1
    have hrest : rest.Nodup := (List.nodup_cons.mp hnd).2
    simp only [Hub.broadcast, if_pos ha.1]
    by_cases hroom : (h.send a).buf.length < sendCap
    · have hto : h.broadcastTo message a =
          .ok { h with send := (Function.update h.send a
                  { buf := (h.send a).buf ++ [message], closed := (h.send a).closed }) } := by
        simp [Hub.broadcastTo, Chan.trySend, ha.2, hroom]
      rw [hto]
      simp only
      rw [ih _ hrest]
      · congr 1
        apply Hub.ext_fields
        · ext c
          by_cases hca : c = a
          · subst hca
            simp [Hub.afterBroadcast, hnotin, hroom]
          · simp [Hub.afterBroadcast, hca, Function.update_noteq hca]
        · intro c
          by_cases hca : c = a
          · subst hca
            simp [Hub.afterBroadcast, hnotin, hroom, ha.2]
          · simp [Hub.afterBroadcast, hca, Function.update_noteq hca]
      · intro c hc
        have hca : c ≠ a := fun e => hnotin (e ▸ hc)
        have := hall c (List.mem_cons_of_mem _ hc)
        simpa [Function.update_noteq hca] using this
    · have hto : h.broadcastTo message a =
          .ok { clients := h.clients.erase a,
                send := (Function.update h.send a
                  { buf := (h.send a).buf, closed := true }) } := by
        simp [Hub.broadcastTo, Chan.trySend, Chan.close, ha.2, hroom]
      rw [hto]
      simp only
      rw [ih _ hrest]
      · congr 1
        apply Hub.ext_fields
        · ext c
          by_cases hca : c = a
          · subst hca
            simp [Hub.afterBroadcast, hnotin, hroom]
          · simp [Hub.afterBroadcast, hca, Function.update_noteq hca]
        · intro c
          by_cases hca : c = a
          · subst hca
            simp [Hub.afterBroadcast, hnotin, hroom, ha.2]
          · simp [Hub.afterBroadcast, hca, Function.update_noteq hca]
      · intro c hc
        have hca : c ≠ a := fun e => hnotin (e ▸ hc)
        have := hall c (List.mem_cons_of_mem _ hc)
        simpa [Function.update_noteq hca, Finset.mem_erase, hca] using this

theorem Hub.broadcast_eq_afterBroadcast (h : Hub) (message : Payload)
    (order : List ClientId) (hord : h.IsOrder order)
    (hopen : ∀ c ∈ h.clients, (h.send c).closed = false) :
    h.broadcast message order = .ok (h.afterBroadcast message (fun c => c ∈ h.clients)) := by
  rw [Hub.broadcast_visit message order h hord.1
    (fun c hc => ⟨(hord.2 c).mp hc, hopen c ((hord.2 c).mp hc)⟩)]
  congr 1
  apply Hub.ext_fields
  · ext c
    simp [Hub.afterBroadcast, hord.2 c]
  · intro c
    simp [Hub.afterBroadcast, hord.2 c]

/-- C3. In a hub state whose registered clients have open queues (every
state of the running program, see `Running.registered_open`), the broadcast
step of payload `message` does not panic, whatever the iteration order
`order` over the registry, and ends in one state `h1`: the registry of `h1`
is the set of registered clients whose queue had room; each of these has
`message` appended to its queue; each registered client whose queue was full
is out of the registry, its queue closed and its contents as before; the
queues of unregistered clients are untouched; every other iteration order
ends in the same `h1`. -/
theorem broadcast_delivers_or_evicts (h : Hub) (message : Payload) (order : List ClientId)
    (hord : h.IsOrder order) (hopen : ∀ c ∈ h.clients, (h.send c).closed = false) :
    ∃ h1, h.broadcast message order = .ok h1 ∧
      (∀ c, c ∈ h1.clients ↔ c ∈ h.clients ∧ (h.send c).buf.length < sendCap) ∧
      (∀ c ∈ h.clients, (h.send c).buf.length < sendCap →
          h1.send c = { buf := (h.send c).buf ++ [message], closed := false }) ∧
      (∀ c ∈ h.clients, ¬ (h.send c).buf.length < sendCap →
          c ∉ h1.clients ∧ h1.send c = { buf := (h.send c).buf, closed := true }) ∧
      (∀ c, c ∉ h.clients → h1.send c = h.send c) ∧
      (∀ order2, h.IsOrder order2 → h.broadcast message order2 = .ok h1) := by
  refine ⟨h.afterBroadcast message (fun c => c ∈ h.clients),
    Hub.broadcast_eq_afterBroadcast h message order hord hopen, ?_, ?_, ?_, ?_, ?_⟩
  · intro c
    simp only [Hub.afterBroadcast, Finset.mem_filter]
    constructor
    · rintro ⟨hc, hr⟩
      exact ⟨hc, hr.resolve_left (fun hn => hn hc)⟩
    · rintro ⟨hc, hr⟩
      exact ⟨hc, Or.inr hr⟩
  · intro c hc hr
    simp [Hub.afterBroadcast, hc, hr]
  · intro c hc hr
    simp [Hub.afterBroadcast, hc, hr]
  · intro c hc
    simp [Hub.afterBroadcast, hc]
  · intro order2 hord2
    exact Hub.broadcast_eq_afterBroadcast h message order2 hord2 hopen

theorem twoClientHub_clients : twoClientHub.clients = {1, 2} := rfl

theorem twoClientHub_send_one : twoClientHub.send 1 = { buf := [], closed := false } := rfl

theorem twoClientHub_send_two :
    twoClientHub.send 2 = { buf := List.replicate 256 [], closed := false } := rfl

theorem twoClientHub_open (c : ClientId) : (twoClientHub.send c).closed = false := by
  show (if c = 2 then ({ buf := List.replicate 256 [], closed := false } : Chan)
    else { buf := [], closed := false }).closed = false
  split <;> rfl

/-- C3, at `twoClientHub`, payload `[7]` and the order 2, 1: client 1
receives the payload, client 2 is evicted and closed; the order 1, 2 gives
the same state. -/
theorem broadcast_delivers_or_evicts_witness :
    twoClientHub.IsOrder [2, 1] ∧
    (∀ c ∈ twoClientHub.clients, (twoClientHub.send c).closed = false) ∧
    ∃ h1, twoClientHub.broadcast [7] [2, 1] = .ok h1 ∧
      (1 ∈ h1.clients ∧ 2 ∉ h1.clients) ∧
      h1.send 1 = { buf := [[7]], closed := false } ∧
      h1.send 2 = { buf := List.replicate 256 [], closed := true } ∧
      twoClientHub.broadcast [7] [1, 2] = .ok h1 := by
  have hord : twoClientHub.IsOrder [2, 1] := by
    refine ⟨by decide, fun c => ?_⟩
    simp [twoClientHub_clients, or_comm]
  have hord2 : twoClientHub.IsOrder [1, 2] := by
    refine ⟨by decide, fun c => ?_⟩
    simp [twoClientHub_clients]
  have hopen : ∀ c ∈ twoClientHub.clients, (twoClientHub.send c).closed = false :=
    fun c _ => twoClientHub_open c
  have h1mem : (1 : ClientId) ∈ twoClientHub.clients := by simp [twoClientHub_clients]
  have h2mem : (2 : ClientId) ∈ twoClientHub.clients := by simp [twoClientHub_clients]
  have hroom1 : (twoClientHub.send 1).buf.length < sendCap := by
    rw [twoClientHub_send_one]
    decide
  have hfull2 : ¬ (twoClientHub.send 2).buf.length < sendCap := by
    rw [twoClientHub_send_two]
    simp only [List.length_replicate, sendCap]
    decide
  obtain ⟨h1, hb, hreg, hdel, hev, _, hany⟩ :=
    broadcast_delivers_or_evicts twoClientHub [7] [2, 1] hord hopen
  refine ⟨hord, hopen, h1, hb, ⟨(hreg 1).mpr ⟨h1mem, hroom1⟩, (hev 2 h2mem hfull2).1⟩, ?_, ?_,
    hany [1, 2] hord2⟩
  · rw [hdel 1 h1mem hroom1, twoClientHub_send_one]
    rfl
  · rw [(hev 2 h2mem hfull2).2, twoClientHub_send_two]

/-- C4. The unregister step for a client that is not registered returns the
state it was given; and an unregister step for the client of a preceding
unregister step returns the state that step produced. -/
theorem unregister_unregistered_noop (h : Hub) (client : ClientId) :
    (client ∉ h.clients → h.unregister client = .ok h) ∧
    (∀ h1, h.unregister client = .ok h1 → h1.unregister client = .ok h1) := by
  constructor
  · intro hn
    simp [Hub.unregister, hn]
  · intro h1 hu
    have hn : client ∉ h1.clients := by
      unfold Hub.unregister at hu
      split at hu
      · split at hu
        · cases hu
        · cases hu
          simp
      · rename_i hnot
        cases hu
        exact hnot
    simp [Hub.unregister, hn]

/-- C4, at `twoClientHub`: client 3 was never registered, client 2 is
unregistered twice. -/
theorem unregister_unregistered_noop_witness :
    (3 : ClientId) ∉ twoClientHub.clients ∧
    twoClientHub.unregister 3 = .ok twoClientHub ∧
    ∃ h1, twoClientHub.unregister 2 = .ok h1 ∧ h1.unregister 2 = .ok h1 := by
  have hn : (3 : ClientId) ∉ twoClientHub.clients := by simp [twoClientHub_clients]
  refine ⟨hn, (unregister_unregistered_noop twoClientHub 3).1 hn, ?_⟩
  have hu : twoClientHub.unregister 2 =
      .ok { clients := twoClientHub.clients.erase 2,
            send := (Function.update twoClientHub.send 2
              { buf := List.replicate 256 [], closed := true }) } := by
    have h2mem : (2 : ClientId) ∈ twoClientHub.clients := by simp [twoClientHub_clients]
    simp only [Hub.unregister, if_pos h2mem, Chan.close, twoClientHub_send_two]
    rfl
  exact ⟨_, hu, (unregister_unregistered_noop twoClientHub 2).2 _ hu⟩

/-- C5. The unregister step for a registered client whose queue is open (as
it is in every state of the running program, see `Running.registered_open`)
ends in a state `h1` where that client is out of the registry and its queue
is closed with its contents kept; every other client has the membership and
the channel (contents and closed flag) it had; the registry is one smaller. -/
theorem unregister_registered (h : Hub) (client : ClientId)
    (hmem : client ∈ h.clients) (hopen : (h.send client).closed = false) :
    ∃ h1, h.unregister client = .ok h1 ∧
      client ∉ h1.clients ∧
      h1.send client = { buf := (h.send client).buf, closed := true } ∧
      (∀ c, c ≠ client → ((c ∈ h1.clients ↔ c ∈ h.clients) ∧ h1.send c = h.send c)) ∧
      h1.clients.card + 1 = h.clients.card := by
  refine ⟨{ clients := h.clients.erase client,
            send := (Function.update h.send client
              { buf := (h.send client).buf, closed := true }) }, ?_, ?_, ?_, ?_, ?_⟩
  · simp [Hub.unregister, Chan.close, hmem, hopen]
  · simp
  · simp
  · intro c hc
    simp [Finset.mem_erase, hc, Function.update_noteq hc]
  · exact Finset.card_erase_add_one hmem

/-- C5, at `twoClientHub` and client 2. -/
theorem unregister_registered_witness :
    (2 : ClientId) ∈ twoClientHub.clients ∧ (twoClientHub.send 2).closed = false ∧
    ∃ h1, twoClientHub.unregister 2 = .ok h1 ∧
      2 ∉ h1.clients ∧
      h1.send 2 = { buf := (twoClientHub.send 2).buf, closed := true } ∧
      (∀ c, c ≠ 2 → ((c ∈ h1.clients ↔ c ∈ twoClientHub.clients) ∧
        h1.send c = twoClientHub.send c)) ∧
      h1.clients.card + 1 = twoClientHub.clients.card :=
  ⟨by simp [twoClientHub_clients], twoClientHub_open 2,
   unregister_registered twoClientHub 2 (by simp [twoClientHub_clients]) (twoClientHub_open 2)⟩

theorem Running.invariant {made : Finset ClientId} {h : Hub} (hr : Running made h) :
    h.clients ⊆ made ∧
    (∀ c ∈ h.clients, (h.send c).closed = false) ∧
    (∀ c, c ∉ made → (h.send c).closed = false) := by
  induction hr with
  | init =>
    refine ⟨Finset.Subset.refl _, ?_, ?_⟩
    · intro c hc
      simp [newHub] at hc
    · intro c _
      rfl
  | serveWebSocket made h client _ hfresh ih =>
    obtain ⟨hsub, hopen, hnew⟩ := ih
    unfold Hub.register
    split
    · exact ⟨hsub.trans (Finset.subset_insert _ _), hopen,
        fun c hc => hnew c (fun hm => hc (Finset.mem_insert_of_mem hm))⟩
    · refine ⟨Finset.insert_subset_insert _ hsub, ?_, ?_⟩
      · intro c hc
        rcases Finset.mem_insert.mp hc with rfl | hc
        · exact hnew _ hfresh
        · exact hopen c hc
      · intro c hc
        exact hnew c (fun hm => hc (Finset.mem_insert_of_mem hm))
  | unregister made h h1 client _ hu ih =>
    obtain ⟨hsub, hopen, hnew⟩ := ih
    unfold Hub.unregister at hu
    split at hu
    · rename_i hmem
      simp only [Chan.close, hopen client hmem] at hu
      cases hu
      refine ⟨(Finset.erase_subset _ _).trans hsub, ?_, ?_⟩
      · intro c hc
        have hne : c ≠ client := Finset.ne_of_mem_erase hc
        simpa [Function.update_noteq hne] using hopen c (Finset.mem_of_mem_erase hc)
      · intro c hc
        have hne : c ≠ client := fun e => hc (e ▸ hsub hmem)
        simpa [Function.update_noteq hne] using hnew c hc
    · cases hu
      exact ⟨hsub, hopen, hnew⟩
  | broadcast made h h1 message order _ hord hb ih =>
    obtain ⟨hsub, hopen, hnew⟩ := ih
    rw [Hub.broadcast_eq_afterBroadcast h message order hord hopen] at hb
    cases hb
    refine ⟨(Finset.filter_subset _ _).trans hsub, ?_, ?_⟩
    · intro c hc
      have hmem : c ∈ h.clients := Finset.mem_of_mem_filter c hc
      have hroom : (h.send c).buf.length < sendCap := by
        have := (Finset.mem_filter.mp hc).2
        exact this.resolve_left (fun hn => hn hmem)
      simp [Hub.afterBroadcast, hmem, hroom]
    · intro c hc
      have hmem : c ∉ h.clients := fun hm => hc (hsub hm)
      simpa [Hub.afterBroadcast, hmem] using hnew c hc
  | writerRecv made h client _ ih =>
    obtain ⟨hsub, hopen, hnew⟩ := ih
    refine ⟨hsub, ?_, ?_⟩
    · intro c hc
      by_cases hce : c = client
      · subst hce
        simpa [Hub.writerRecv, Chan.recv] using hopen c hc
      · simpa [Hub.writerRecv, Function.update_noteq hce] using hopen c hc
    · intro c hc
      by_cases hce : c = client
      · subst hce
        simpa [Hub.writerRecv, Chan.recv] using hnew c hc
      · simpa [Hub.writerRecv, Function.update_noteq hce] using hnew c hc

theorem Running.registered_open {made : Finset ClientId} {h : Hub} (hr : Running made h) :
    ∀ c ∈ h.clients, (h.send c).closed = false :=
  hr.invariant.2.1

/-! ## Properties of the float64 conversion -/

theorem leadingBit_spec : ∀ (fuel n : Nat), 0 < n → n < 2 ^ fuel →
    2 ^ leadingBit fuel n ≤ n ∧ n < 2 ^ (leadingBit fuel n + 1) := by
  intro fuel
  induction fuel with
  | zero =>
    intro n h0 h1
    simp at h1
    omega
  | succ k ih =>
    intro n h0 h1
    unfold leadingBit
    split
    · rename_i h2
      have hlt : n / 2 < 2 ^ k := by
        rw [pow_succ] at h1
        omega
      obtain ⟨ha, hb⟩ := ih (n / 2) (by omega) hlt
      rw [pow_succ, pow_succ]
      rw [pow_succ] at hb
      constructor <;> omega
    · simp
      omega

theorem Float64.ofUint64_exact (n : Nat) (hn : n < 2 ^ 53) :
    (Float64.ofUint64 n).toNat? = some n := by
  by_cases h0 : n = 0
  · subst h0
    rfl
  · obtain ⟨ha, hb⟩ := leadingBit_spec 64 n (by omega) (by omega)
    have he : leadingBit 64 n ≤ 52 := by
      by_contra hc
      have : 2 ^ 53 ≤ 2 ^ leadingBit 64 n := Nat.pow_le_pow_right (by decide) (by omega)
      omega
    simp only [Float64.ofUint64, if_neg h0, if_pos he]
    generalize leadingBit 64 n = e at ha hb he
    have hk : 2 ^ (52 - e) * 2 ^ e = 2 ^ 52 := by
      rw [← pow_add]
      congr 1
      omega
    have hp0 : 0 < 2 ^ (52 - e) := Nat.pow_pos (by decide)
    have h1 : 2 ^ 52 ≤ n * 2 ^ (52 - e) := by
      rw [← hk, Nat.mul_comm n]
      exact Nat.mul_le_mul_left _ ha
    have h2 : n * 2 ^ (52 - e) < 2 ^ 53 := by
      have : n * 2 ^ (52 - e) < 2 ^ (e + 1) * 2 ^ (52 - e) :=
        Nat.mul_lt_mul_of_pos_right hb hp0
      rw [pow_succ, Nat.mul_assoc, Nat.mul_comm 2, ← Nat.mul_assoc, Nat.mul_comm (2 ^ e), hk]
        at this
      omega
    have hsum : 2 ^ 52 + (n * 2 ^ (52 - e) - 2 ^ 52) = n * 2 ^ (52 - e) := by omega
    have hdiv : ((e + 1023) * 2 ^ 52 + (n * 2 ^ (52 - e) - 2 ^ 52)) / 2 ^ 52 = e + 1023 := by
      generalize n * 2 ^ (52 - e) = q at h1 h2
      omega
    have hmod : ((e + 1023) * 2 ^ 52 + (n * 2 ^ (52 - e) - 2 ^ 52)) % 2 ^ 52 =
        n * 2 ^ (52 - e) - 2 ^ 52 := by
      generalize n * 2 ^ (52 - e) = q at h1 h2
      omega
    have hne : (e + 1023) * 2 ^ 52 + (n * 2 ^ (52 - e) - 2 ^ 52) ≠ 0 := by
      generalize n * 2 ^ (52 - e) = q at h1 h2
      omega
    simp only [Float64.toNat?, hdiv, hmod, hsum, if_neg hne]
    rw [if_neg (by omega)]
    by_cases h52 : e = 52
    · subst h52
      simp
    · rw [if_neg (by omega)]
      have hsub : 1075 - (e + 1023) = 52 - e := by omega
      rw [hsub, Nat.mul_mod_left, if_pos rfl, Nat.mul_div_cancel _ hp0]

/-! ## Properties of the label maps -/

theorem Labels.get?_set_self (m : Labels) (k v : String) :
    Labels.get? (Labels.set m k v) k = some v := by
  induction m with
  | nil => simp [Labels.set, Labels.get?]
  | cons kv rest ih =>
    obtain ⟨k1, v1⟩ := kv
    by_cases hk : k1 = k
    · simp [Labels.set, Labels.get?, hk]
    · simp [Labels.set, Labels.get?, hk, ih]

theorem Labels.get?_set_ne (m : Labels) (k v j : String) (hj : j ≠ k) :
    Labels.get? (Labels.set m k v) j = Labels.get? m j := by
  induction m with
  | nil =>
    have hkj : ¬ k = j := fun e => hj e.symm
    simp [Labels.set, Labels.get?, hkj]
  | cons kv rest ih =>
    obtain ⟨k1, v1⟩ := kv
    by_cases hk : k1 = k
    · have hkj : ¬ k = j := fun e => hj e.symm
      simp [Labels.set, Labels.get?, hk, hkj]
    · by_cases h1 : k1 = j
      · simp [Labels.set, Labels.get?, hk, h1, hj]
      · simp [Labels.set, Labels.get?, hk, h1, ih]

theorem Labels.set_of_not_mem (m : Labels) (k v : String) (hk : k ∉ m.map Prod.fst) :
    Labels.set m k v = m ++ [(k, v)] := by
  induction m with
  | nil => rfl
  | cons kv rest ih =>
    obtain ⟨k1, v1⟩ := kv
    simp only [List.map_cons, List.mem_cons, not_or] at hk
    have h1 : ¬ k1 = k := fun e => hk.1 e.symm
    simp [Labels.set, h1, ih hk.2]

theorem Labels.keys_set (m : Labels) (k v : String) :
    (Labels.set m k v).map Prod.fst =
      if k ∈ m.map Prod.fst then m.map Prod.fst else m.map Prod.fst ++ [k] := by
  induction m with
  | nil => simp [Labels.set]
  | cons kv rest ih =>
    obtain ⟨k1, v1⟩ := kv
    by_cases hk : k1 = k
    · simp [Labels.set, hk]
    · have hk2 : ¬ k = k1 := fun e => hk e.symm
      simp only [Labels.set, if_neg hk, List.map_cons, ih, List.mem_cons, hk2, false_or]
      split <;> simp

theorem Labels.nodup_keys_set (m : Labels) (k v : String) (hm : (m.map Prod.fst).Nodup) :
    ((Labels.set m k v).map Prod.fst).Nodup := by
  rw [Labels.keys_set]
  split
  · exact hm
  · rename_i hk
    exact List.Nodup.append hm (List.nodup_singleton k) (by simpa using hk)

theorem Labels.nodup_keys_foldl_set {α : Type} (f : α → String) (g : α → String) :
    ∀ (l : List α) (acc : Labels), (acc.map Prod.fst).Nodup →
      ((l.foldl (fun labels lp => Labels.set labels (f lp) (g lp)) acc).map Prod.fst).Nodup := by
  intro l
  induction l with
  | nil => intro acc h; exact h
  | cons a rest ih =>
    intro acc h
    exact ih _ (Labels.nodup_keys_set acc (f a) (g a) h)

theorem extractLabels_nodup_keys (m : dto.Metric) :
    ((extractLabels m).map Prod.fst).Nodup :=
  Labels.nodup_keys_foldl_set (fun lp : dto.LabelPair => lp.Name)
    (fun lp : dto.LabelPair => lp.Value) m.Label [] (by simp)

theorem Labels.foldl_set_eq_append :
    ∀ (l acc : Labels), ((acc ++ l).map Prod.fst).Nodup →
      l.foldl (fun dst kv => Labels.set dst kv.1 kv.2) acc = acc ++ l := by
  intro l
  induction l with
  | nil => intro acc _; simp
  | cons kv rest ih =>
    intro acc h
    have hk : kv.1 ∉ acc.map Prod.fst := by
      intro hmem
      rw [List.map_append, List.map_cons] at h
      exact (List.nodup_append.mp h).2.2 hmem (List.mem_cons_self _ _)
    simp only [List.foldl_cons]
    rw [Labels.set_of_not_mem acc kv.1 kv.2 hk, ih]
    · simp
    · simpa using h

theorem Labels.copy_eq (m : Labels) (hm : (m.map Prod.fst).Nodup) : Labels.copy m = m := by
  unfold Labels.copy
  rw [Labels.foldl_set_eq_append m [] (by simpa using hm)]
  rfl

theorem Labels.get?_foldl_set {α : Type} (f : α → String) (g : α → String) (k : String) :
    ∀ (l : List α) (acc : Labels),
      Labels.get? (l.foldl (fun labels lp => Labels.set labels (f lp) (g lp)) acc) k =
        match l.reverse.find? (fun lp => f lp = k) with
        | some lp => some (g lp)
        | none => Labels.get? acc k := by
  intro l
  induction l with
  | nil => intro acc; simp
  | cons a rest ih =>
    intro acc
    simp only [List.foldl_cons, List.reverse_cons, List.find?_append]
    rw [ih]
    cases hfind : rest.reverse.find? (fun lp => f lp = k) with
    | some lp => simp
    | none =>
      by_cases ha : f a = k
      · subst ha
        simp [List.find?, Labels.get?_set_self]
      · have hk : k ≠ f a := fun e => ha e.symm
        simp [List.find?, ha, Labels.get?_set_ne _ _ _ _ hk]

/-! ## Properties of the flattener -/

theorem foldl_append_singleton {α β : Type} (g : α → β) :
    ∀ (l : List α) (init : List β),
      l.foldl (fun acc x => acc ++ [g x]) init = init ++ l.map g := by
  intro l
  induction l with
  | nil => intro init; simp
  | cons a rest ih => intro init; simp [ih]

theorem bucketMetric_eq (sprintfG : Float64 → String) (mf : dto.MetricFamily)
    (m : dto.Metric) (bucket : dto.Bucket) :
    bucketMetric sprintfG mf (extractLabels m) bucket =
      { Name := mf.Name ++ "_bucket"
        Type_ := metricTypeToString mf.Type_
        Help := mf.Help
        Labels := Labels.set (extractLabels m) "le" (sprintfG bucket.UpperBound)
        Value := Float64.ofUint64 bucket.CumulativeCount } := by
  simp only [bucketMetric, Labels.copy_eq _ (extractLabels_nodup_keys m)]

theorem collectMetric_histogram (sprintfG : Float64 → String) (mf : dto.MetricFamily)
    (m : dto.Metric) (metrics : List Metric) (hT : mf.Type_ = dto.MetricType.HISTOGRAM) :
    collectMetric sprintfG mf metrics m =
      metrics ++
        ({ Name := mf.Name ++ "_count", Type_ := "histogram", Help := mf.Help,
           Labels := extractLabels m,
           Value := Float64.ofUint64 m.GetHistogramSampleCount } ::
         m.GetHistogramBucket.map (fun b =>
          ({ Name := mf.Name ++ "_bucket", Type_ := "histogram", Help := mf.Help,
             Labels := Labels.set (extractLabels m) "le" (sprintfG b.UpperBound),
             Value := Float64.ofUint64 b.CumulativeCount } : Metric)) ++
         [{ Name := mf.Name, Type_ := "histogram", Help := mf.Help,
            Labels := extractLabels m, Value := m.GetHistogramSampleSum }]) := by
  simp only [collectMetric, extractValue, hT, metricTypeToString, foldl_append_singleton,
    bucketMetric_eq]
  simp [hT, metricTypeToString]

theorem collectMetric_summary (sprintfG : Float64 → String) (mf : dto.MetricFamily)
    (m : dto.Metric) (metrics : List Metric) (hT : mf.Type_ = dto.MetricType.SUMMARY) :
    collectMetric sprintfG mf metrics m =
      metrics ++
        [{ Name := mf.Name ++ "_count", Type_ := "summary", Help := mf.Help,
           Labels := extractLabels m,
           Value := Float64.ofUint64 m.GetSummarySampleCount },
         { Name := mf.Name, Type_ := "summary", Help := mf.Help,
           Labels := extractLabels m, Value := m.GetSummarySampleSum }] := by
  simp [collectMetric, extractValue, hT, metricTypeToString]

theorem collectMetric_counter (sprintfG : Float64 → String) (mf : dto.MetricFamily)
    (m : dto.Metric) (metrics : List Metric) (hT : mf.Type_ = dto.MetricType.COUNTER) :
    collectMetric sprintfG mf metrics m =
      metrics ++
        [{ Name := mf.Name, Type_ := "counter", Help := mf.Help,
           Labels := extractLabels m, Value := m.GetCounterValue }] := by
  simp [collectMetric, extractValue, hT, metricTypeToString]

theorem collectMetric_gauge (sprintfG : Float64 → String) (mf : dto.MetricFamily)
    (m : dto.Metric) (metrics : List Metric) (hT : mf.Type_ = dto.MetricType.GAUGE) :
    collectMetric sprintfG mf metrics m =
      metrics ++
        [{ Name := mf.Name, Type_ := "gauge", Help := mf.Help,
           Labels := extractLabels m, Value := m.GetGaugeValue }] := by
  simp [collectMetric, extractValue, hT, metricTypeToString]

theorem collectMetric_unsupported (sprintfG : Float64 → String) (mf : dto.MetricFamily)
    (m : dto.Metric) (metrics : List Metric)
    (hc : mf.Type_ ≠ dto.MetricType.COUNTER) (hg : mf.Type_ ≠ dto.MetricType.GAUGE)
    (hs : mf.Type_ ≠ dto.MetricType.SUMMARY) (hh : mf.Type_ ≠ dto.MetricType.HISTOGRAM) :
    collectMetric sprintfG mf metrics m = metrics := by
  cases hT : mf.Type_ <;> simp_all [collectMetric, extractValue]

theorem collectMetric_append (sprintfG : Float64 → String) (mf : dto.MetricFamily)
    (m : dto.Metric) (metrics : List Metric) :
    collectMetric sprintfG mf metrics m = metrics ++ collectMetric sprintfG mf [] m := by
  cases hT : mf.Type_
  · rw [collectMetric_counter _ _ _ _ hT, collectMetric_counter _ _ _ _ hT]; simp
  · rw [collectMetric_gauge _ _ _ _ hT, collectMetric_gauge _ _ _ _ hT]; simp
  · rw [collectMetric_summary _ _ _ _ hT, collectMetric_summary _ _ _ _ hT]; simp
  · rw [collectMetric_unsupported _ _ _ _ (by simp [hT]) (by simp [hT]) (by simp [hT])
        (by simp [hT]),
      collectMetric_unsupported _ _ _ _ (by simp [hT]) (by simp [hT]) (by simp [hT])
        (by simp [hT])]
    simp
  · rw [collectMetric_histogram _ _ _ _ hT, collectMetric_histogram _ _ _ _ hT]; simp
  · rw [collectMetric_unsupported _ _ _ _ (by simp [hT]) (by simp [hT]) (by simp [hT])
        (by simp [hT]),
      collectMetric_unsupported _ _ _ _ (by simp [hT]) (by simp [hT]) (by simp [hT])
        (by simp [hT])]
    simp

theorem foldl_collectMetric (sprintfG : Float64 → String) (mf : dto.MetricFamily) :
    ∀ (ms : List dto.Metric) (metrics : List Metric),
      ms.foldl (collectMetric sprintfG mf) metrics =
        metrics ++ ms.flatMap (collectMetric sprintfG mf []) := by
  intro ms
  induction ms with
  | nil => intro metrics; simp
  | cons m rest ih =>
    intro metrics
    simp only [List.foldl_cons, List.flatMap_cons]
    rw [ih, collectMetric_append, List.append_assoc]

theorem foldl_families (sprintfG : Float64 → String) :
    ∀ (mfs : List dto.MetricFamily) (metrics : List Metric),
      mfs.foldl (fun metrics mf => mf.Metric.foldl (collectMetric sprintfG mf) metrics) metrics =
        metrics ++ mfs.flatMap (fun mf => mf.Metric.flatMap (collectMetric sprintfG mf [])) := by
  intro mfs
  induction mfs with
  | nil => intro metrics; simp
  | cons mf rest ih =>
    intro metrics
    simp only [List.foldl_cons, List.flatMap_cons]
    rw [ih, foldl_collectMetric, List.append_assoc]

theorem collectMetrics_eq_flatMap (sprintfG : Float64 → String) (mfs : List dto.MetricFamily) :
    collectMetrics sprintfG mfs none =
      .ok (mfs.flatMap (fun mf => mf.Metric.flatMap (collectMetric sprintfG mf []))) := by
  simp [collectMetrics, foldl_families]

/-- C6. For a point `m` of a HISTOGRAM family `mf`, with `K` buckets, the
loop body of `collectMetrics` appends to the output a list `emitted` of
exactly `K + 2` samples. Up to order, `emitted` is: the sample named
`mf.Name` with the sum as value and the point's labels, the sample named
`mf.Name ++ "_count"` with the count as value (converted to float64, which
is exact below 2^53, see `Float64.ofUint64_exact`), and one
sample named `mf.Name ++ "_bucket"` per bucket, whose value is the bucket's
cumulative count (converted to float64) and whose labels are the point's
labels with the key "le" set. The bucket samples occur in `emitted` in the
order of the buckets. In the labels of a bucket sample "le" is bound to the
formatted upper bound and every other key is bound as in the point's
labels. -/
theorem histogram_point_emits (sprintfG : Float64 → String) (mf : dto.MetricFamily)
    (m : dto.Metric) (metrics : List Metric) (hT : mf.Type_ = dto.MetricType.HISTOGRAM) :
    ∃ emitted : List Metric,
      collectMetric sprintfG mf metrics m = metrics ++ emitted ∧
      emitted.length = m.GetHistogramBucket.length + 2 ∧
      emitted.Perm
        ({ Name := mf.Name, Type_ := "histogram", Help := mf.Help,
           Labels := extractLabels m, Value := m.GetHistogramSampleSum } ::
         { Name := mf.Name ++ "_count", Type_ := "histogram", Help := mf.Help,
           Labels := extractLabels m,
           Value := Float64.ofUint64 m.GetHistogramSampleCount } ::
         m.GetHistogramBucket.map (fun b =>
          ({ Name := mf.Name ++ "_bucket", Type_ := "histogram", Help := mf.Help,
             Labels := Labels.set (extractLabels m) "le" (sprintfG b.UpperBound),
             Value := Float64.ofUint64 b.CumulativeCount } : Metric))) ∧
      List.Sublist
        (m.GetHistogramBucket.map (fun b =>
          ({ Name := mf.Name ++ "_bucket", Type_ := "histogram", Help := mf.Help,
             Labels := Labels.set (extractLabels m) "le" (sprintfG b.UpperBound),
             Value := Float64.ofUint64 b.CumulativeCount } : Metric)))
        emitted ∧
      (∀ b : dto.Bucket,
        Labels.get? (Labels.set (extractLabels m) "le" (sprintfG b.UpperBound)) "le" =
          some (sprintfG b.UpperBound) ∧
        ∀ k, k ≠ "le" →
          Labels.get? (Labels.set (extractLabels m) "le" (sprintfG b.UpperBound)) k =
            Labels.get? (extractLabels m) k) := by
  refine ⟨_, collectMetric_histogram sprintfG mf m metrics hT, ?_, ?_, ?_, ?_⟩
  · simp
  · refine (List.Perm.cons _ List.perm_append_comm).trans ?_
    exact List.Perm.swap _ _ _
  · exact (List.sublist_append_left _ _).cons _
  · intro b
    exact ⟨Labels.get?_set_self _ _ _, fun k hk => Labels.get?_set_ne _ _ _ _ hk⟩

/-- C6, at `histogramPoint` (one bucket): three samples are appended. -/
theorem histogram_point_emits_witness :
    histogramFamily.Type_ = dto.MetricType.HISTOGRAM ∧
    ∃ emitted : List Metric,
      collectMetric sprintfGInf histogramFamily [] histogramPoint = [] ++ emitted ∧
      emitted.length = 3 := by
  obtain ⟨emitted, h1, h2, _⟩ :=
    histogram_point_emits sprintfGInf histogramFamily histogramPoint [] rfl
  exact ⟨rfl, emitted, h1, h2⟩

/-- C7, as stated, fails: on the family `histogramFamily` the output of
`collectMetrics` is the `h_count` sample, the `h_bucket` sample and then the
sum sample `h`; it is not the list that starts with the sum sample. -/
theorem histogram_sum_first_counterexample :
    collectMetrics sprintfGInf [histogramFamily] none =
      .ok [{ Name := "h_count", Type_ := "histogram", Help := "latency",
             Labels := [("path", "/")], Value := ⟨0x4024000000000000⟩ },
           { Name := "h_bucket", Type_ := "histogram", Help := "latency",
             Labels := [("path", "/"), ("le", "+Inf")], Value := ⟨0x4024000000000000⟩ },
           { Name := "h", Type_ := "histogram", Help := "latency",
             Labels := [("path", "/")], Value := ⟨0x400999999999999A⟩ }] ∧
    collectMetrics sprintfGInf [histogramFamily] none ≠
      .ok [{ Name := "h", Type_ := "histogram", Help := "latency",
             Labels := [("path", "/")], Value := ⟨0x400999999999999A⟩ },
           { Name := "h_count", Type_ := "histogram", Help := "latency",
             Labels := [("path", "/")], Value := ⟨0x4024000000000000⟩ },
           { Name := "h_bucket", Type_ := "histogram", Help := "latency",
             Labels := [("path", "/"), ("le", "+Inf")], Value := ⟨0x4024000000000000⟩ }] := by
  have h : collectMetrics sprintfGInf [histogramFamily] none =
      .ok [{ Name := "h_count", Type_ := "histogram", Help := "latency",
             Labels := [("path", "/")], Value := ⟨0x4024000000000000⟩ },
           { Name := "h_bucket", Type_ := "histogram", Help := "latency",
             Labels := [("path", "/"), ("le", "+Inf")], Value := ⟨0x4024000000000000⟩ },
           { Name := "h", Type_ := "histogram", Help := "latency",
             Labels := [("path", "/")], Value := ⟨0x400999999999999A⟩ }] := by
    decide
  refine ⟨h, ?_⟩
  rw [h]
  decide

/-- C7, amended. For a point `m` of a HISTOGRAM family `mf`, the samples the
loop body of `collectMetrics` appends are, in this order: the
`mf.Name ++ "_count"` sample, the `mf.Name ++ "_bucket"` samples in bucket
order, and last the sum sample under the name `mf.Name`. -/
theorem histogram_point_order (sprintfG : Float64 → String) (mf : dto.MetricFamily)
    (m : dto.Metric) (metrics : List Metric) (hT : mf.Type_ = dto.MetricType.HISTOGRAM) :
    collectMetric sprintfG mf metrics m =
      metrics ++
        ([{ Name := mf.Name ++ "_count", Type_ := "histogram", Help := mf.Help,
            Labels := extractLabels m,
            Value := Float64.ofUint64 m.GetHistogramSampleCount }] ++
         m.GetHistogramBucket.map (fun b =>
          ({ Name := mf.Name ++ "_bucket", Type_ := "histogram", Help := mf.Help,
             Labels := Labels.set (extractLabels m) "le" (sprintfG b.UpperBound),
             Value := Float64.ofUint64 b.CumulativeCount } : Metric)) ++
         [{ Name := mf.Name, Type_ := "histogram", Help := mf.Help,
            Labels := extractLabels m, Value := m.GetHistogramSampleSum }]) := by
  rw [collectMetric_histogram sprintfG mf m metrics hT]
  simp

/-- C7 amended, at `histogramPoint`: the names of the appended samples, in
order. -/
theorem histogram_point_order_witness :
    histogramFamily.Type_ = dto.MetricType.HISTOGRAM ∧
    (collectMetric sprintfGInf histogramFamily [] histogramPoint).map (fun s => s.Name) =
      ["h_count", "h_bucket", "h"] := by
  refine ⟨rfl, ?_⟩
  rw [histogram_point_order sprintfGInf histogramFamily histogramPoint [] rfl]
  decide

/-- C8. For a point `m` of a SUMMARY family `mf`, whatever quantiles the
point carries, the loop body of `collectMetrics` appends exactly two samples:
one named `mf.Name ++ "_count"` whose value is the sample count (converted to
float64) and one named `mf.Name` whose value is the sample sum, both with
type "summary", the help text of the family and the labels of the point. No
sample is made from a quantile. -/
theorem summary_point_emits (sprintfG : Float64 → String) (mf : dto.MetricFamily)
    (m : dto.Metric) (metrics : List Metric) (hT : mf.Type_ = dto.MetricType.SUMMARY) :
    ∃ emitted : List Metric,
      collectMetric sprintfG mf metrics m = metrics ++ emitted ∧
      emitted.length = 2 ∧
      emitted =
        [{ Name := mf.Name ++ "_count", Type_ := "summary", Help := mf.Help,
           Labels := extractLabels m,
           Value := Float64.ofUint64 m.GetSummarySampleCount },
         { Name := mf.Name, Type_ := "summary", Help := mf.Help,
           Labels := extractLabels m, Value := m.GetSummarySampleSum }] :=
  ⟨_, collectMetric_summary sprintfG mf m metrics hT, rfl, rfl⟩

/-- C8, at `summaryFamily`, whose point has a quantile: the whole output of
`collectMetrics` is the count sample (4.0) and the sum sample (3.2). -/
theorem summary_point_emits_witness :
    summaryFamily.Type_ = dto.MetricType.SUMMARY ∧
    collectMetrics sprintfGInf [summaryFamily] none =
      .ok [{ Name := "s_count", Type_ := "summary", Help := "sizes", Labels := [],
             Value := ⟨0x4010000000000000⟩ },
           { Name := "s", Type_ := "summary", Help := "sizes", Labels := [],
             Value := ⟨0x400999999999999A⟩ }] := by
  obtain ⟨emitted, h1, _, h3⟩ :=
    summary_point_emits sprintfGInf summaryFamily summaryPoint [] rfl
  refine ⟨rfl, ?_⟩
  have h4 : collectMetrics sprintfGInf [summaryFamily] none =
      .ok (collectMetric sprintfGInf summaryFamily [] summaryPoint) := rfl
  rw [h4, h1, h3]
  decide

/-- C9. For a point `m` of a COUNTER family (of a GAUGE family) `mf`, the
loop body of `collectMetrics` appends exactly one sample: its name and help
are those of the family, its type is "counter" ("gauge"), its value is the
counter value (gauge value) of the point and its labels are the map built
from the label pairs of the point, in which a key is bound to the value of
the last pair with that name. -/
theorem counter_gauge_point_emits (sprintfG : Float64 → String) (mf : dto.MetricFamily)
    (m : dto.Metric) (metrics : List Metric) :
    (mf.Type_ = dto.MetricType.COUNTER →
      collectMetric sprintfG mf metrics m =
        metrics ++ [{ Name := mf.Name, Type_ := "counter", Help := mf.Help,
                      Labels := extractLabels m, Value := m.GetCounterValue }]) ∧
    (mf.Type_ = dto.MetricType.GAUGE →
      collectMetric sprintfG mf metrics m =
        metrics ++ [{ Name := mf.Name, Type_ := "gauge", Help := mf.Help,
                      Labels := extractLabels m, Value := m.GetGaugeValue }]) ∧
    (∀ k : String,
      Labels.get? (extractLabels m) k =
        (m.Label.reverse.find? (fun lp => lp.Name = k)).map (fun lp => lp.Value)) := by
  refine ⟨collectMetric_counter sprintfG mf m metrics, collectMetric_gauge sprintfG mf m metrics,
    fun k => ?_⟩
  unfold extractLabels
  rw [Labels.get?_foldl_set (fun lp : dto.LabelPair => lp.Name)
    (fun lp : dto.LabelPair => lp.Value) k m.Label []]
  cases m.Label.reverse.find? (fun lp => lp.Name = k) <;> simp [Labels.get?]

/-- C9, at `counterFamily`: one sample; the label `code` given twice is bound
to the second value. -/
theorem counter_gauge_point_emits_witness :
    counterFamily.Type_ = dto.MetricType.COUNTER ∧
    collectMetric sprintfGInf counterFamily [] counterPoint =
      [{ Name := "c", Type_ := "counter", Help := "requests",
         Labels := [("code", "404")], Value := ⟨0x3FF0000000000000⟩ }] := by
  refine ⟨rfl, ?_⟩
  rw [(counter_gauge_point_emits sprintfGInf counterFamily counterPoint []).1 rfl]
  decide

/-- C10. A family whose type is none of COUNTER, GAUGE, SUMMARY, HISTOGRAM
changes neither the output of `collectMetrics` nor its success: the result
is the one obtained without that family. And when `Gather` gave no error,
`collectMetrics` returns a list in which every sample was made from a point
of a family of the input, and the type of the sample is one of "counter",
"gauge", "summary", "histogram", is not "unknown", and is the name of the
type of that family in lower case. -/
theorem unsupported_type_skipped (sprintfG : Float64 → String) :
    (∀ (before after : List dto.MetricFamily) (mf : dto.MetricFamily),
      mf.Type_ ≠ dto.MetricType.COUNTER → mf.Type_ ≠ dto.MetricType.GAUGE →
      mf.Type_ ≠ dto.MetricType.SUMMARY → mf.Type_ ≠ dto.MetricType.HISTOGRAM →
      collectMetrics sprintfG (before ++ mf :: after) none =
        collectMetrics sprintfG (before ++ after) none) ∧
    (∀ mfs : List dto.MetricFamily,
      ∃ out, collectMetrics sprintfG mfs none = .ok out ∧
        ∀ s ∈ out, ∃ mf ∈ mfs, ∃ m ∈ mf.Metric,
          s ∈ collectMetric sprintfG mf [] m ∧
          (s.Type_ = "counter" ∨ s.Type_ = "gauge" ∨ s.Type_ = "summary" ∨
            s.Type_ = "histogram") ∧
          s.Type_ ≠ "unknown" ∧
          s.Type_ = lowerCase mf.Type_.enumName) := by
  constructor
  · intro before after mf hc hg hs hh
    have hnone : mf.Metric.flatMap (collectMetric sprintfG mf []) = [] := by
      rw [List.flatMap_eq_nil_iff]
      intro m _
      exact collectMetric_unsupported sprintfG mf m [] hc hg hs hh
    rw [collectMetrics_eq_flatMap, collectMetrics_eq_flatMap]
    simp [List.flatMap_append, List.flatMap_cons, hnone]
  · intro mfs
    refine ⟨_, collectMetrics_eq_flatMap sprintfG mfs, ?_⟩
    intro s hs
    obtain ⟨mf, hmf, hs⟩ := List.mem_flatMap.mp hs
    obtain ⟨m, hm, hs⟩ := List.mem_flatMap.mp hs
    refine ⟨mf, hmf, m, hm, hs, ?_⟩
    cases hT : mf.Type_
    · rw [collectMetric_counter _ _ _ _ hT, List.nil_append] at hs
      have hty : s.Type_ = "counter" := by rw [List.mem_singleton.mp hs]
      rw [hty]
      decide
    · rw [collectMetric_gauge _ _ _ _ hT, List.nil_append] at hs
      have hty : s.Type_ = "gauge" := by rw [List.mem_singleton.mp hs]
      rw [hty]
      decide
    · rw [collectMetric_summary _ _ _ _ hT, List.nil_append] at hs
      have hty : s.Type_ = "summary" := by
        rcases List.mem_cons.mp hs with h | h
        · rw [h]
        · rw [List.mem_singleton.mp h]
      rw [hty]
      decide
    · rw [collectMetric_unsupported _ _ _ _ (by simp [hT]) (by simp [hT]) (by simp [hT])
        (by simp [hT])] at hs
      cases hs
    · rw [collectMetric_histogram _ _ _ _ hT, List.nil_append] at hs
      have hty : s.Type_ = "histogram" := by
        rcases List.mem_cons.mp hs with h | h
        · rw [h]
        · rcases List.mem_append.mp h with h | h
          · obtain ⟨b, _, hb⟩ := List.mem_map.mp h
            rw [← hb]
          · rw [List.mem_singleton.mp h]
      rw [hty]
      decide
    · rw [collectMetric_unsupported _ _ _ _ (by simp [hT]) (by simp [hT]) (by simp [hT])
        (by simp [hT])] at hs
      cases hs

/-- C10, at the input `counterFamily`, `untypedFamily`: the result is the one
of `counterFamily` alone, a single sample of type "counter". -/
theorem unsupported_type_skipped_witness :
    untypedFamily.Type_ ≠ dto.MetricType.COUNTER ∧
    untypedFamily.Type_ ≠ dto.MetricType.GAUGE ∧
    untypedFamily.Type_ ≠ dto.MetricType.SUMMARY ∧
    untypedFamily.Type_ ≠ dto.MetricType.HISTOGRAM ∧
    collectMetrics sprintfGInf ([counterFamily] ++ untypedFamily :: []) none =
      collectMetrics sprintfGInf ([counterFamily] ++ []) none ∧
    collectMetrics sprintfGInf ([counterFamily] ++ []) none =
      .ok [{ Name := "c", Type_ := "counter", Help := "requests",
             Labels := [("code", "404")], Value := ⟨0x3FF0000000000000⟩ }] :=
  ⟨by decide, by decide, by decide, by decide,
   (unsupported_type_skipped sprintfGInf).1 [counterFamily] [] untypedFamily
     (by decide) (by decide) (by decide) (by decide),
   by decide⟩

/-- C11. The flattening of `collectMetrics` is a concatenation in source
order. For family lists `A` and `B` the output for `A ++ B` is the output
for `A` followed by the output for `B`. For one family the output is the
concatenation, in point order, of the samples of its points, where the
samples of a point are what the loop body appends for it, whatever was
collected before. Hence the samples of an earlier family or point stand
before the samples of a later one: in the output for `A ++ B` the samples of
`A` keep their positions and the samples of `B` follow all of them. -/
theorem collectMetrics_concat (sprintfG : Float64 → String) :
    (∀ A B : List dto.MetricFamily,
      ∃ outA outB,
        collectMetrics sprintfG A none = .ok outA ∧
        collectMetrics sprintfG B none = .ok outB ∧
        collectMetrics sprintfG (A ++ B) none = .ok (outA ++ outB) ∧
        ∀ i j : Nat, i < outA.length → j < outB.length →
          (outA ++ outB)[i]? = outA[i]? ∧ (outA ++ outB)[outA.length + j]? = outB[j]?) ∧
    (∀ mf : dto.MetricFamily,
      collectMetrics sprintfG [mf] none =
        .ok (mf.Metric.flatMap (fun m => collectMetric sprintfG mf [] m))) ∧
    (∀ (mf : dto.MetricFamily) (m : dto.Metric) (metrics : List Metric),
      collectMetric sprintfG mf metrics m = metrics ++ collectMetric sprintfG mf [] m) ∧
    (∀ (mf : dto.MetricFamily) (ps qs : List dto.Metric),
      (ps ++ qs).flatMap (fun m => collectMetric sprintfG mf [] m) =
        ps.flatMap (fun m => collectMetric sprintfG mf [] m) ++
        qs.flatMap (fun m => collectMetric sprintfG mf [] m)) := by
  refine ⟨fun A B => ⟨_, _, collectMetrics_eq_flatMap sprintfG A,
    collectMetrics_eq_flatMap sprintfG B, ?_, ?_⟩, fun mf => ?_,
    fun mf m metrics => collectMetric_append sprintfG mf m metrics,
    fun mf ps qs => List.flatMap_append ps qs _⟩
  · rw [collectMetrics_eq_flatMap, List.flatMap_append]
  · intro i j hi hj
    refine ⟨List.getElem?_append_left hi, ?_⟩
    rw [List.getElem?_append_right (Nat.le_add_right _ _), Nat.add_sub_cancel_left]
  · rw [collectMetrics_eq_flatMap]
    simp

/-- C11, at the family lists `[histogramFamily]` and `[counterFamily]`: the
three samples of the histogram come first, the sample of the counter is the
fourth. -/
theorem collectMetrics_concat_witness :
    ∃ outA outB,
      collectMetrics sprintfGInf [histogramFamily] none = .ok outA ∧
      collectMetrics sprintfGInf [counterFamily] none = .ok outB ∧
      collectMetrics sprintfGInf ([histogramFamily] ++ [counterFamily]) none =
        .ok (outA ++ outB) ∧
      outA.length = 3 ∧ outB.length = 1 ∧
      (outA ++ outB)[3]? = outB[0]? := by
  obtain ⟨outA, outB, hA, hB, hAB, hidx⟩ :=
    (collectMetrics_concat sprintfGInf).1 [histogramFamily] [counterFamily]
  have hA3 : collectMetrics sprintfGInf [histogramFamily] none =
      .ok [{ Name := "h_count", Type_ := "histogram", Help := "latency",
             Labels := [("path", "/")], Value := ⟨0x4024000000000000⟩ },
           { Name := "h_bucket", Type_ := "histogram", Help := "latency",
             Labels := [("path", "/"), ("le", "+Inf")], Value := ⟨0x4024000000000000⟩ },
           { Name := "h", Type_ := "histogram", Help := "latency",
             Labels := [("path", "/")], Value := ⟨0x400999999999999A⟩ }] := by decide
  have hB1 : collectMetrics sprintfGInf [counterFamily] none =
      .ok [{ Name := "c", Type_ := "counter", Help := "requests",
             Labels := [("code", "404")], Value := ⟨0x3FF0000000000000⟩ }] := by decide
  have hlenA : outA.length = 3 := by
    rw [hA] at hA3
    cases hA3
    rfl
  have hlenB : outB.length = 1 := by
    rw [hB] at hB1
    cases hB1
    rfl
  refine ⟨outA, outB, hA, hB, hAB, hlenA, hlenB, ?_⟩
  have := (hidx 0 0 (by omega) (by omega)).2
  rw [hlenA] at this
  exact this

/-! ## Properties of the broadcast cycle -/

/-- C12. When `Gather` returned an error, `collectMetrics` returns an error
(and with it no sample list). One iteration of `broadcastMetrics` calls
`Hub.Broadcast` exactly when `collectMetrics` and `json.Marshal` both
succeed, and then with the encoded JSON text; when either fails, nothing is
sent and the hub is in the state it was in: same registry, same queues. -/
theorem gather_failure_no_broadcast (sprintfG : Float64 → String)
    (encode : JsonText → Payload) (mfs : List dto.MetricFamily) :
    (∀ e : String,
      collectMetrics sprintfG mfs (some e) = .error ("error gathering metrics: " ++ e)) ∧
    (∀ (err : Option String) (message : Payload),
      broadcastMetricsTick sprintfG encode mfs err = some message ↔
        ∃ metrics jsonData,
          collectMetrics sprintfG mfs err = .ok metrics ∧
          marshalMetrics metrics = .ok jsonData ∧ message = encode jsonData) ∧
    (∀ err : Option String,
      ((∃ e, collectMetrics sprintfG mfs err = .error e) ∨
       (∃ metrics e, collectMetrics sprintfG mfs err = .ok metrics ∧
          marshalMetrics metrics = .error e)) →
      broadcastMetricsTick sprintfG encode mfs err = none ∧
      ∀ (h : Hub) (order : List ClientId),
        h.afterTick (broadcastMetricsTick sprintfG encode mfs err) order = .ok h) := by
  refine ⟨fun e => rfl, fun err message => ?_, fun err hfail => ?_⟩
  · unfold broadcastMetricsTick
    cases hc : collectMetrics sprintfG mfs err with
    | error e => simp
    | ok metrics =>
      cases hm : marshalMetrics metrics with
      | error e => simp [hm]
      | ok jsonData =>
        simp only [hm, Option.some.injEq]
        constructor
        · intro h
          exact ⟨metrics, jsonData, rfl, hm, h.symm⟩
        · rintro ⟨ms, j, hms, hj, hmsg⟩
          cases hms
          rw [hm] at hj
          cases hj
          exact hmsg.symm
  · have hnone : broadcastMetricsTick sprintfG encode mfs err = none := by
      unfold broadcastMetricsTick
      rcases hfail with ⟨e, he⟩ | ⟨metrics, e, hc, hm⟩
      · rw [he]
      · rw [hc]
        simp only [hm]
    refine ⟨hnone, fun h order => ?_⟩
    rw [hnone]
    rfl

/-- C12, at a failed `Gather` and at a gauge whose value is NaN (the
serialization fails): nothing is sent in either cycle and `newHub` stays as
it is. -/
theorem gather_failure_no_broadcast_witness :
    collectMetrics sprintfGInf [counterFamily] (some "scrape failed") =
      .error "error gathering metrics: scrape failed" ∧
    (broadcastMetricsTick sprintfGInf encodeTag [counterFamily] (some "scrape failed") = none ∧
      ∀ (h : Hub) (order : List ClientId),
        h.afterTick (broadcastMetricsTick sprintfGInf encodeTag [counterFamily]
          (some "scrape failed")) order = .ok h) ∧
    (broadcastMetricsTick sprintfGInf encodeTag [nanGaugeFamily] none = none ∧
      ∀ (h : Hub) (order : List ClientId),
        h.afterTick (broadcastMetricsTick sprintfGInf encodeTag [nanGaugeFamily] none)
          order = .ok h) :=
  ⟨(gather_failure_no_broadcast sprintfGInf encodeTag [counterFamily]).1 "scrape failed",
   (gather_failure_no_broadcast sprintfGInf encodeTag [counterFamily]).2.2
     (some "scrape failed") (Or.inl ⟨_, rfl⟩),
   (gather_failure_no_broadcast sprintfGInf encodeTag [nanGaugeFamily]).2.2 none
     (Or.inr ⟨[{ Name := "g", Type_ := "gauge", Help := "ratio", Labels := [],
                 Value := ⟨0x7FF8000000000000⟩ }], "json: unsupported value",
       by decide, by decide⟩)⟩

theorem Hub.registerAll_spec :
    ∀ (cs : List ClientId) (h : Hub), h.clients.card + cs.length ≤ maxConnections →
      (h.registerAll cs).clients = h.clients ∪ cs.toFinset ∧
      (h.registerAll cs).send = h.send := by
  intro cs
  induction cs with
  | nil =>
    intro h _
    simp [Hub.registerAll]
  | cons c rest ih =>
    intro h hle
    simp only [List.length_cons] at hle
    have hlt : ¬ h.clients.card ≥ maxConnections := by omega
    have hreg : (h.register c).1 = { h with clients := insert c h.clients } := by
      simp [Hub.register, hlt]
    have hcard : (insert c h.clients).card ≤ h.clients.card + 1 := Finset.card_insert_le _ _
    have hstep : h.registerAll (c :: rest) = (h.register c).1.registerAll rest := rfl
    rw [hstep, hreg]
    obtain ⟨hc, hs⟩ := ih { h with clients := insert c h.clients } (by
      show (insert c h.clients).card + rest.length ≤ maxConnections
      omega)
    refine ⟨?_, hs⟩
    rw [hc]
    ext x
    simp only [Finset.mem_union, Finset.mem_insert, List.toFinset_cons]
    tauto

/-- C13. Start from `newHub`, register the `n` distinct clients `cs` (with
`1 ≤ n ≤ 64`) and broadcast `message` once, in any iteration order: the step
does not panic; the registry is then exactly `cs`, of size `n`; the queue of
every client of `cs` is open and holds the one payload `message`; and
`writePump` of that client, run on that queue, calls `WriteMessage` exactly
once, as a text message with the bytes `message`, followed by the deferred
calls only when that write fails. -/
theorem register_then_broadcast (cs : List ClientId) (message : Payload)
    (order : List ClientId) (hfresh : cs.Nodup) (hone : 1 ≤ cs.length)
    (hmax : cs.length ≤ 64) (hord : (newHub.registerAll cs).IsOrder order) :
    ∃ h1, (newHub.registerAll cs).broadcast message order = .ok h1 ∧
      (∀ c, c ∈ h1.clients ↔ c ∈ cs) ∧
      h1.clients.card = cs.length ∧
      ∀ c ∈ cs,
        h1.send c = { buf := [message], closed := false } ∧
        ∀ writeFails : Nat → Bool,
          writePump c writeFails (h1.send c) =
            WriterEffect.writeMessage c TextMessage message ::
              (if writeFails 0 then [WriterEffect.close c, WriterEffect.unregister c]
               else []) := by
  obtain ⟨hc, hs⟩ := Hub.registerAll_spec cs newHub (by
    show (∅ : Finset ClientId).card + cs.length ≤ maxConnections
    simp only [Finset.card_empty, maxConnections]
    omega)
  have hclients : (newHub.registerAll cs).clients = cs.toFinset := by
    rw [hc]
    show ∅ ∪ cs.toFinset = cs.toFinset
    exact Finset.empty_union _
  have hsend : ∀ c, (newHub.registerAll cs).send c = { buf := [], closed := false } := by
    intro c
    rw [hs]
    rfl
  have hopen : ∀ c ∈ (newHub.registerAll cs).clients,
      ((newHub.registerAll cs).send c).closed = false := by
    intro c _
    rw [hsend c]
  refine ⟨_, Hub.broadcast_eq_afterBroadcast _ message order hord hopen, ?_, ?_, ?_⟩
  · intro c
    simp [Hub.afterBroadcast, hclients, hsend, sendCap]
  · have hfilter : ((newHub.registerAll cs).afterBroadcast message
        (fun c => c ∈ (newHub.registerAll cs).clients)).clients = cs.toFinset := by
      ext c
      simp [Hub.afterBroadcast, hclients, hsend, sendCap]
    rw [hfilter, List.toFinset_card_of_nodup hfresh]
  · intro c hcmem
    have hmem : c ∈ (newHub.registerAll cs).clients := by
      rw [hclients]
      exact List.mem_toFinset.mpr hcmem
    have hq : ((newHub.registerAll cs).afterBroadcast message
        (fun c => c ∈ (newHub.registerAll cs).clients)).send c =
        { buf := [message], closed := false } := by
      simp [Hub.afterBroadcast, hmem, hsend, sendCap]
    refine ⟨hq, fun writeFails => ?_⟩
    rw [hq]
    simp only [writePump, writePumpLoop]
    split <;> simp

/-- C13, at the three clients 1, 2, 3, the payload `[77]` and the iteration
order 3, 1, 2. -/
theorem register_then_broadcast_witness :
    [1, 2, 3].Nodup ∧ 1 ≤ [1, 2, 3].length ∧ [1, 2, 3].length ≤ 64 ∧
    (newHub.registerAll [1, 2, 3]).IsOrder [3, 1, 2] ∧
    ∃ h1, (newHub.registerAll [1, 2, 3]).broadcast [77] [3, 1, 2] = .ok h1 ∧
      h1.clients.card = 3 ∧
      ∀ c ∈ [1, 2, 3],
        h1.send c = { buf := [[77]], closed := false } ∧
        writePump c (fun _ => false) (h1.send c) =
          [WriterEffect.writeMessage c TextMessage [77]] := by
  have hord : (newHub.registerAll [1, 2, 3]).IsOrder [3, 1, 2] := by decide
  obtain ⟨h1, hb, _, hcard, hq⟩ :=
    register_then_broadcast [1, 2, 3] [77] [3, 1, 2] (by decide) (by decide) (by decide) hord
  refine ⟨by decide, by decide, by decide, hord, h1, hb, hcard, fun c hc => ?_⟩
  exact ⟨(hq c hc).1, by simpa using (hq c hc).2 (fun _ => false)⟩

theorem marshalMetric_spec (m : Metric) (hfin : m.Value.isFinite = true) :
    ∃ o, marshalMetric m = .ok o ∧
      o.map Prod.fst =
        ["name", "type"] ++ (if m.Help = "" then [] else ["help"]) ++
          (if m.Labels = [] then [] else ["labels"]) ++ ["value"] ∧
      o.lookup "name" = some (JsonValue.string m.Name) ∧
      o.lookup "type" = some (JsonValue.string m.Type_) ∧
      o.lookup "value" = some (JsonValue.number m.Value) ∧
      o.lookup "help" = (if m.Help = "" then none else some (JsonValue.string m.Help)) ∧
      o.lookup "labels" =
        (if m.Labels = [] then none else some (JsonValue.object (sortByKey m.Labels))) := by
  have ho : marshalMetric m =
      .ok ([("name", JsonValue.string m.Name), ("type", JsonValue.string m.Type_)] ++
         (if m.Help = "" then [] else [("help", JsonValue.string m.Help)]) ++
         (if m.Labels.length = 0 then [] else
            [("labels", JsonValue.object (sortByKey m.Labels))]) ++
         [("value", JsonValue.number m.Value)]) := by
    simp only [marshalMetric, hfin, if_true]
  refine ⟨_, ho, ?_⟩
  by_cases hh : m.Help = "" <;> by_cases hl : m.Labels = [] <;>
    simp [hh, hl, List.lookup]

theorem marshalElements_spec :
    ∀ metrics : List Metric, (∀ m ∈ metrics, m.Value.isFinite = true) →
      ∃ objects, marshalElements metrics = .ok objects ∧
        List.Forall₂ (fun m o => marshalMetric m = .ok o) metrics objects := by
  intro metrics
  induction metrics with
  | nil => intro _; exact ⟨[], rfl, List.Forall₂.nil⟩
  | cons m rest ih =>
    intro hfin
    obtain ⟨o, ho, _⟩ := marshalMetric_spec m (hfin m (List.mem_cons_self _ _))
    obtain ⟨os, hos, hall⟩ := ih (fun x hx => hfin x (List.mem_cons_of_mem _ hx))
    refine ⟨o :: os, ?_, List.Forall₂.cons ho hall⟩
    simp only [marshalElements, ho, hos]

/-- C14, as stated, fails. The one sample of `bareCounterFamily` has an empty
help text and no labels, and its JSON object has the three members `name`,
`type`, `value` only; and for no metric family at all the sample list is
empty and the JSON text is `null`, not an array. -/
theorem marshal_keys_counterexample :
    collectMetrics sprintfGInf [bareCounterFamily] none =
      .ok [{ Name := "c", Type_ := "counter", Help := "", Labels := [],
             Value := ⟨0x3FF0000000000000⟩ }] ∧
    marshalMetrics [{ Name := "c", Type_ := "counter", Help := "", Labels := [],
                      Value := ⟨0x3FF0000000000000⟩ }] =
      .ok (JsonText.array [[("name", JsonValue.string "c"), ("type", JsonValue.string "counter"),
                            ("value", JsonValue.number ⟨0x3FF0000000000000⟩)]]) ∧
    List.lookup "help" [("name", JsonValue.string "c"), ("type", JsonValue.string "counter"),
                        ("value", JsonValue.number ⟨0x3FF0000000000000⟩)] = none ∧
    List.lookup "labels" [("name", JsonValue.string "c"), ("type", JsonValue.string "counter"),
                          ("value", JsonValue.number ⟨0x3FF0000000000000⟩)] = none ∧
    collectMetrics sprintfGInf [] none = .ok [] ∧
    marshalMetrics [] = .ok JsonText.null ∧
    marshalMetrics [] ≠ .ok (JsonText.array []) := by
  decide

/-- C14, amended. For a non-empty sample list whose values are all finite,
`json.Marshal` succeeds with a JSON array that has exactly one object per
sample, in sample order. The members of the object of a sample are, in this
order: `name`, `type`, `help` exactly when the help text is not empty,
`labels` exactly when the label set is not empty, and `value`; they carry
the name, the type, the help text, the label map and the value of the
sample. -/
theorem marshal_one_object_per_sample (metrics : List Metric) (hne : metrics ≠ [])
    (hfin : ∀ m ∈ metrics, m.Value.isFinite = true) :
    ∃ objects : List JsonObject,
      marshalMetrics metrics = .ok (JsonText.array objects) ∧
      objects.length = metrics.length ∧
      List.Forall₂ (fun (m : Metric) (o : JsonObject) =>
        o.map Prod.fst =
          ["name", "type"] ++ (if m.Help = "" then [] else ["help"]) ++
            (if m.Labels = [] then [] else ["labels"]) ++ ["value"] ∧
        o.lookup "name" = some (JsonValue.string m.Name) ∧
        o.lookup "type" = some (JsonValue.string m.Type_) ∧
        o.lookup "value" = some (JsonValue.number m.Value) ∧
        o.lookup "help" = (if m.Help = "" then none else some (JsonValue.string m.Help)) ∧
        o.lookup "labels" =
          (if m.Labels = [] then none else some (JsonValue.object (sortByKey m.Labels))))
        metrics objects := by
  obtain ⟨objects, hos, hall⟩ := marshalElements_spec metrics hfin
  refine ⟨objects, ?_, hall.length_eq.symm, ?_⟩
  · cases metrics with
    | nil => exact absurd rfl hne
    | cons m rest => simp only [marshalMetrics, hos]
  · refine hall.imp ?_
    intro m o hmo
    have hm : m.Value.isFinite = true := by
      by_contra hc
      simp [marshalMetric, hc] at hmo
    obtain ⟨o2, ho2, hspec⟩ := marshalMetric_spec m hm
    rw [hmo] at ho2
    cases ho2
    exact hspec

/-- C14 amended, at the output for `histogramFamily` and `bareCounterFamily`:
four samples, four objects; the last has no `help` and no `labels`. -/
theorem marshal_one_object_per_sample_witness :
    ∃ metrics, collectMetrics sprintfGInf [histogramFamily, bareCounterFamily] none = .ok metrics ∧
      metrics ≠ [] ∧ (∀ m ∈ metrics, m.Value.isFinite = true) ∧
      ∃ objects : List JsonObject,
        marshalMetrics metrics = .ok (JsonText.array objects) ∧
        objects.length = 4 ∧
        objects.map (fun o => o.map Prod.fst) =
          [["name", "type", "help", "labels", "value"],
           ["name", "type", "help", "labels", "value"],
           ["name", "type", "help", "labels", "value"],
           ["name", "type", "value"]] := by
  refine ⟨_, collectMetrics_eq_flatMap sprintfGInf _, by decide, by decide, ?_⟩
  obtain ⟨objects, hm, hlen, _⟩ :=
    marshal_one_object_per_sample
      ([histogramFamily, bareCounterFamily].flatMap
        (fun mf => mf.Metric.flatMap (collectMetric sprintfGInf mf [])))
      (by decide) (by decide)
  refine ⟨objects, hm, hlen, ?_⟩
  have hd : marshalMetrics ([histogramFamily, bareCounterFamily].flatMap
      (fun mf => mf.Metric.flatMap (collectMetric sprintfGInf mf []))) =
      .ok (JsonText.array
        [[("name", JsonValue.string "h_count"), ("type", JsonValue.string "histogram"),
          ("help", JsonValue.string "latency"),
          ("labels", JsonValue.object [("path", "/")]),
          ("value", JsonValue.number ⟨0x4024000000000000⟩)],
         [("name", JsonValue.string "h_bucket"), ("type", JsonValue.string "histogram"),
          ("help", JsonValue.string "latency"),
          ("labels", JsonValue.object [("le", "+Inf"), ("path", "/")]),
          ("value", JsonValue.number ⟨0x4024000000000000⟩)],
         [("name", JsonValue.string "h"), ("type", JsonValue.string "histogram"),
          ("help", JsonValue.string "latency"),
          ("labels", JsonValue.object [("path", "/")]),
          ("value", JsonValue.number ⟨0x400999999999999A⟩)],
         [("name", JsonValue.string "c"), ("type", JsonValue.string "counter"),
          ("value", JsonValue.number ⟨0x3FF0000000000000⟩)]]) := by
    decide
  rw [hd] at hm
  cases hm
  decide

theorem Hub.broadcastTo_length_le {h h1 : Hub} {message : Payload} {client : ClientId}
    (hb : h.broadcastTo message client = .ok h1)
    (hle : ∀ c, (h.send c).buf.length ≤ sendCap) :
    ∀ c, (h1.send c).buf.length ≤ sendCap := by
  intro c
  unfold Hub.broadcastTo Chan.trySend Chan.close at hb
  by_cases hcl : (h.send client).closed = true
  · simp [hcl] at hb
  · by_cases hroom : (h.send client).buf.length < sendCap
    · simp only [hcl, hroom, if_true] at hb
      cases hb
      by_cases hc : c = client
      · subst hc
        simp only [Function.update_same, List.length_append, List.length_singleton]
        omega
      · simp only [Function.update_noteq hc]
        exact hle c
    · simp only [hcl, hroom, if_false] at hb
      cases hb
      by_cases hc : c = client
      · subst hc
        simp only [Function.update_same]
        exact hle c
      · simp only [Function.update_noteq hc]
        exact hle c

theorem Hub.broadcast_length_le (message : Payload) :
    ∀ (order : List ClientId) (h h1 : Hub), h.broadcast message order = .ok h1 →
      (∀ c, (h.send c).buf.length ≤ sendCap) → ∀ c, (h1.send c).buf.length ≤ sendCap := by
  intro order
  induction order with
  | nil =>
    intro h h1 hb hle
    simp only [Hub.broadcast] at hb
    cases hb
    exact hle
  | cons a rest ih =>
    intro h h1 hb hle
    simp only [Hub.broadcast] at hb
    split at hb
    · split at hb
      · cases hb
      · rename_i h2 hto
        exact ih h2 h1 hb (Hub.broadcastTo_length_le hto hle)
    · exact ih h h1 hb hle

theorem Reachable.length_le {h : Hub} (hr : Reachable h) :
    ∀ c, (h.send c).buf.length ≤ sendCap := by
  induction hr with
  | init => intro c; simp [newHub]
  | register h client _ ih =>
    intro c
    unfold Hub.register
    split <;> exact ih c
  | unregister h h1 client _ hu ih =>
    intro c
    unfold Hub.unregister Chan.close at hu
    split at hu
    · by_cases hcl : (h.send client).closed = true
      · simp [hcl] at hu
      · simp only [hcl] at hu
        cases hu
        by_cases hc : c = client
        · subst hc
          simp only [Function.update_same]
          exact ih c
        · simp only [Function.update_noteq hc]
          exact ih c
    · cases hu
      exact ih c
  | broadcast h h1 message order _ _ hb ih =>
    exact Hub.broadcast_length_le message order h h1 hb ih
  | writerRecv h client _ ih =>
    intro c
    by_cases hc : c = client
    · subst hc
      have := ih c
      simp only [Hub.writerRecv, Function.update_same, Chan.recv, List.length_tail]
      omega
    · simp only [Hub.writerRecv, Function.update_noteq hc]
      exact ih c

theorem Running.reachable {made : Finset ClientId} {h : Hub} (hr : Running made h) :
    Reachable h := by
  induction hr with
  | init => exact Reachable.init
  | serveWebSocket made h client _ _ ih => exact Reachable.register h client ih
  | unregister made h h1 client _ hu ih => exact Reachable.unregister h h1 client ih hu
  | broadcast made h h1 message order _ hord hb ih =>
    exact Reachable.broadcast h h1 message order ih hord hb
  | writerRecv made h client _ ih => exact Reachable.writerRecv h client ih

/-- C15. A queue has capacity 256. In every reachable hub state no queue
holds more than `sendCap` = 256 payloads. In every state of the running
program, when the broadcast loop reaches a registered client, the iteration
does not panic and it evicts the client exactly when its queue holds 256
payloads; and a whole broadcast step, in any iteration order, evicts a
registered client exactly when its queue held 256 payloads. -/
theorem queue_capacity_and_eviction :
    (∀ h : Hub, Reachable h → ∀ c, (h.send c).buf.length ≤ 256) ∧
    (∀ (made : Finset ClientId) (h : Hub), Running made h →
      ∀ (message : Payload) (c : ClientId), c ∈ h.clients →
        ∃ h1, h.broadcastTo message c = .ok h1 ∧
          (c ∉ h1.clients ↔ (h.send c).buf.length = 256)) ∧
    (∀ (made : Finset ClientId) (h : Hub), Running made h →
      ∀ (message : Payload) (order : List ClientId), h.IsOrder order →
        ∃ h1, h.broadcast message order = .ok h1 ∧
          ∀ c ∈ h.clients, (c ∉ h1.clients ↔ (h.send c).buf.length = 256)) := by
  refine ⟨fun h hr c => hr.length_le c, ?_, ?_⟩
  · intro made h hr message c hc
    have hopen := hr.registered_open c hc
    have hle : (h.send c).buf.length ≤ 256 := hr.reachable.length_le c
    by_cases hroom : (h.send c).buf.length < sendCap
    · refine ⟨{ h with send := (Function.update h.send c
          { buf := (h.send c).buf ++ [message], closed := (h.send c).closed }) }, ?_, ?_⟩
      · simp [Hub.broadcastTo, Chan.trySend, hopen, hroom]
      · have hne : (h.send c).buf.length ≠ 256 := by
          unfold sendCap at hroom
          omega
        simp [hc, hne]
    · refine ⟨{ clients := h.clients.erase c,
                send := (Function.update h.send c
                  { buf := (h.send c).buf, closed := true }) }, ?_, ?_⟩
      · simp [Hub.broadcastTo, Chan.trySend, Chan.close, hopen, hroom]
      · have heq : (h.send c).buf.length = 256 := by
          unfold sendCap at hroom
          omega
        simp [heq]
  · intro made h hr message order hord
    refine ⟨_, Hub.broadcast_eq_afterBroadcast h message order hord hr.registered_open, ?_⟩
    intro c hc
    have hle : (h.send c).buf.length ≤ 256 := hr.reachable.length_le c
    simp only [Hub.afterBroadcast, Finset.mem_filter, hc, not_true_eq_false, false_or,
      true_and, sendCap]
    omega

theorem queuedHub_clients (k : Nat) : (queuedHub k).clients = {5} := rfl

theorem queuedHub_send (k : Nat) :
    (queuedHub k).send 5 = { buf := List.replicate k [], closed := false } := rfl

theorem queuedHub_isOrder (k : Nat) : (queuedHub k).IsOrder [5] :=
  ⟨List.nodup_singleton 5, fun c => by simp [queuedHub_clients]⟩

theorem queuedHub_open (k : Nat) :
    ∀ c ∈ (queuedHub k).clients, ((queuedHub k).send c).closed = false := by
  intro c _
  show (if c = 5 then ({ buf := List.replicate k [], closed := false } : Chan)
    else { buf := [], closed := false }).closed = false
  split <;> rfl

theorem queuedHub_broadcast (k : Nat) (hk : k < 256) :
    (queuedHub k).broadcast [] [5] = .ok (queuedHub (k + 1)) := by
  rw [Hub.broadcast_eq_afterBroadcast _ [] [5] (queuedHub_isOrder k) (queuedHub_open k)]
  congr 1
  apply Hub.ext_fields
  · ext c
    simp only [Hub.afterBroadcast, Finset.mem_filter, queuedHub_clients, Finset.mem_singleton]
    constructor
    · exact fun h => h.1
    · intro hc
      subst hc
      refine ⟨rfl, Or.inr ?_⟩
      rw [queuedHub_send, sendCap]
      simp only [List.length_replicate]
      exact hk
  · intro c
    by_cases hc : c = 5
    · subst hc
      have hroom : ((queuedHub k).send 5).buf.length < sendCap := by
        rw [queuedHub_send, sendCap]
        simp only [List.length_replicate]
        exact hk
      simp only [Hub.afterBroadcast, queuedHub_clients, Finset.mem_singleton, if_true, hroom]
      rw [queuedHub_send, queuedHub_send, List.replicate_succ']
    · simp only [Hub.afterBroadcast, queuedHub_clients, Finset.mem_singleton, hc, if_false]
      show (if c = 5 then ({ buf := List.replicate k [], closed := false } : Chan)
        else { buf := [], closed := false }) =
        (if c = 5 then ({ buf := List.replicate (k + 1) [], closed := false } : Chan)
        else { buf := [], closed := false })
      rw [if_neg hc, if_neg hc]

theorem queuedHub_running : ∀ k : Nat, k ≤ 256 → Running (insert 5 ∅) (queuedHub k) := by
  intro k
  induction k with
  | zero =>
    intro _
    have h0 : queuedHub 0 = (newHub.register 5).1 := by
      apply Hub.ext_fields
      · decide
      · intro c
        show (if c = 5 then ({ buf := List.replicate 0 [], closed := false } : Chan)
          else { buf := [], closed := false }) = newHub.send c
        split <;> rfl
    rw [h0]
    exact Running.serveWebSocket ∅ newHub 5 Running.init (by decide)
  | succ j ih =>
    intro hj
    exact Running.broadcast _ (queuedHub j) (queuedHub (j + 1)) [] [5] (ih (by omega))
      (queuedHub_isOrder j) (queuedHub_broadcast j (by omega))

/-- C15, at states of the running program: client 5 is served and the empty
payload is broadcast 256 times without a write in between, so its queue
holds 256 payloads (`queuedHub 256`); the bound is attained, and the next
broadcast evicts the client, in the loop iteration and in the whole step.
After 3 broadcasts only (`queuedHub 3`) the queue holds 3 payloads and the
next broadcast keeps the client registered. -/
theorem queue_capacity_and_eviction_witness :
    Reachable (queuedHub 256) ∧
    ((queuedHub 256).send 5).buf.length ≤ 256 ∧
    ((queuedHub 256).send 5).buf.length = 256 ∧
    Running (insert 5 ∅) (queuedHub 256) ∧
    (5 : ClientId) ∈ (queuedHub 256).clients ∧
    (∃ h1, (queuedHub 256).broadcastTo [1] 5 = .ok h1 ∧ 5 ∉ h1.clients) ∧
    (∃ h1, (queuedHub 256).broadcast [1] [5] = .ok h1 ∧ 5 ∉ h1.clients) ∧
    Running (insert 5 ∅) (queuedHub 3) ∧
    ((queuedHub 3).send 5).buf.length = 3 ∧
    (∃ h1, (queuedHub 3).broadcastTo [1] 5 = .ok h1 ∧ 5 ∈ h1.clients) := by
  have hrun := queuedHub_running 256 (by omega)
  have hrun3 := queuedHub_running 3 (by omega)
  have hmem : (5 : ClientId) ∈ (queuedHub 256).clients := by
    rw [queuedHub_clients]
    exact Finset.mem_singleton_self 5
  have hmem3 : (5 : ClientId) ∈ (queuedHub 3).clients := by
    rw [queuedHub_clients]
    exact Finset.mem_singleton_self 5
  have hlen : ((queuedHub 256).send 5).buf.length = 256 := by
    rw [queuedHub_send]
    exact List.length_replicate _ _
  have hlen3 : ((queuedHub 3).send 5).buf.length = 3 := by
    rw [queuedHub_send]
    exact List.length_replicate _ _
  obtain ⟨h1, hb1, hiff1⟩ := queue_capacity_and_eviction.2.1 _ _ hrun [1] 5 hmem
  obtain ⟨h2, hb2, hiff2⟩ :=
    queue_capacity_and_eviction.2.2 _ _ hrun [1] [5] (queuedHub_isOrder 256)
  obtain ⟨h3, hb3, hiff3⟩ := queue_capacity_and_eviction.2.1 _ _ hrun3 [1] 5 hmem3
  refine ⟨hrun.reachable, queue_capacity_and_eviction.1 _ hrun.reachable 5, hlen, hrun, hmem,
    ⟨h1, hb1, hiff1.mpr hlen⟩, ⟨h2, hb2, (hiff2 5 hmem).mpr hlen⟩, hrun3, hlen3,
    ⟨h3, hb3, ?_⟩⟩
  by_contra hnot
  have := hiff3.mp hnot
  omega

/-- C19. In every state of the running program (from `newHub`, by register,
unregister and broadcast steps and writer receives, each client submitted
for registration at most once, by the `ServeWebSocket` call that builds it):
every registered client has an open queue; a client whose queue is closed is
not registered; the unregister step of any client returns a state, so it
closes no closed queue; and the broadcast step of any payload, in any
iteration order, returns a state, so it sends on no closed queue and closes
no closed queue. Neither panic is reachable. -/
theorem no_panic_when_served_once (made : Finset ClientId) (h : Hub)
    (hr : Running made h) :
    (∀ c ∈ h.clients, (h.send c).closed = false) ∧
    (∀ c, (h.send c).closed = true → c ∉ h.clients) ∧
    (∀ c, ∃ h1, h.unregister c = .ok h1) ∧
    (∀ (message : Payload) (order : List ClientId), h.IsOrder order →
      ∃ h1, h.broadcast message order = .ok h1) := by
  have hopen := hr.registered_open
  refine ⟨hopen, ?_, ?_, ?_⟩
  · intro c hcl hc
    rw [hopen c hc] at hcl
    cases hcl
  · intro c
    by_cases hc : c ∈ h.clients
    · exact ⟨_, by simp only [Hub.unregister, if_pos hc, Chan.close, hopen c hc]; rfl⟩
    · exact ⟨h, by simp only [Hub.unregister, if_neg hc]⟩
  · intro message order hord
    exact ⟨_, Hub.broadcast_eq_afterBroadcast h message order hord hopen⟩

/-- C19, at the state after client 5 was served and then unregistered: its
queue is closed, it is not registered, and a second unregister step and a
broadcast step return a state. -/
theorem no_panic_when_served_once_witness :
    ∃ h, Running (insert 5 ∅) h ∧ (h.send 5).closed = true ∧ (5 : ClientId) ∉ h.clients ∧
      (∃ h1, h.unregister 5 = .ok h1) ∧ (∃ h1, h.broadcast [1] [] = .ok h1) := by
  have hserved : Running (insert 5 ∅) (newHub.register 5).1 :=
    Running.serveWebSocket ∅ newHub 5 Running.init (by decide)
  have hmem : (5 : ClientId) ∈ (newHub.register 5).1.clients := by decide
  have hu : (newHub.register 5).1.unregister 5 =
      .ok { clients := (newHub.register 5).1.clients.erase 5,
            send := (Function.update (newHub.register 5).1.send 5
              { buf := [], closed := true }) } := by
    simp only [Hub.unregister, if_pos hmem, Chan.close]
    rfl
  have hrun := Running.unregister _ _ _ 5 hserved hu
  have hinst := no_panic_when_served_once _ _ hrun
  refine ⟨_, hrun, by simp, by simp, hinst.2.2.1 5, ?_⟩
  have hcl : (newHub.register 5).1.clients = {5} := by decide
  exact hinst.2.2.2 [1] [] ⟨List.nodup_nil, fun c => by simp [hcl]⟩

/-! ## Properties of the `le` labels -/

/-- C17 does not hold of the code: `newServer` starts two `run` loops on its
hub, the one of `newHub` (documented there as "starts its run loop") and a
second one by its own `go hub.run()`; `newHub` alone starts one. -/
theorem newServer_starts_two_run_loops :
    newHubStarts.count Goroutine.hubRun = 1 ∧
    newServerStarts.count Goroutine.hubRun = 2 ∧
    newServerStarts =
      [Goroutine.hubRun, Goroutine.hubRun, Goroutine.broadcastMetrics] := by
  decide

theorem applyEnvConfig_TickerInterval {D : Type} (getenv : String → String)
    (unmarshal : String → Option (Option D)) (cfg : Config D) :
    (applyEnvConfig getenv unmarshal cfg).TickerInterval =
      if getenv "PROMMY_INTERVAL" ≠ "" then
        match Atoi (getenv "PROMMY_INTERVAL") with
        | some ms => if ms > 0 then wrapInt64 (ms * Millisecond) else cfg.TickerInterval
        | none => cfg.TickerInterval
      else cfg.TickerInterval := by
  unfold applyEnvConfig
  simp only []
  repeat' split
  all_goals rfl

theorem applyEnvConfig_interval_in_range {D : Type} (getenv : String → String)
    (unmarshal : String → Option (Option D)) (cfg : Config D) (ms : Int)
    (hparse : Atoi (getenv "PROMMY_INTERVAL") = some ms) (hpos : 0 < ms)
    (hmax : ms ≤ 9223372036854) :
    (applyEnvConfig getenv unmarshal cfg).TickerInterval = ms * Millisecond ∧
    0 < (applyEnvConfig getenv unmarshal cfg).TickerInterval := by
  have hne : getenv "PROMMY_INTERVAL" ≠ "" := by
    intro he
    have hempty : Atoi "" = none := by decide
    rw [he, hempty] at hparse
    cases hparse
  have h63 : (2 : Int) ^ 63 = 9223372036854775808 := by norm_num
  have h64 : (2 : Int) ^ 64 = 18446744073709551616 := by norm_num
  have hwrap : wrapInt64 (ms * Millisecond) = ms * Millisecond := by
    unfold wrapInt64 Millisecond
    rw [Int.emod_eq_of_lt (by omega) (by rw [h63, h64]; omega)]
    omega
  rw [applyEnvConfig_TickerInterval, if_pos hne, hparse]
  simp only [gt_iff_lt, hpos, if_true]
  rw [hwrap]
  unfold Millisecond
  omega

theorem applyEnvConfig_interval_unchanged {D : Type} (getenv : String → String)
    (unmarshal : String → Option (Option D)) (cfg : Config D)
    (hbad : getenv "PROMMY_INTERVAL" = "" ∨ Atoi (getenv "PROMMY_INTERVAL") = none ∨
      ∃ ms, Atoi (getenv "PROMMY_INTERVAL") = some ms ∧ ms ≤ 0) :
    (applyEnvConfig getenv unmarshal cfg).TickerInterval = cfg.TickerInterval := by
  rw [applyEnvConfig_TickerInterval]
  rcases hbad with h | h | ⟨ms, h, hle⟩
  · simp [h]
  · simp [h]
  · have hn : ¬ ms > 0 := by omega
    simp [h, hn]

/-- C18 does not hold of the code for a large value. `PROMMY_INTERVAL` set to
"9223372036855" parses as an integer above 0, and `time.Duration(ms) *
time.Millisecond` wraps in `int64`: the `TickerInterval` becomes
-9223372036854551616 nanoseconds, which is not `ms` milliseconds and is not
positive. The value "2000" of the test gives 2 seconds. -/
theorem applyEnvConfig_interval_overflow :
    Atoi "9223372036855" = some 9223372036855 ∧
    (applyEnvConfig (intervalEnv "9223372036855") (fun _ => none) testConfig).TickerInterval =
      -9223372036854551616 ∧
    (applyEnvConfig (intervalEnv "9223372036855") (fun _ => none) testConfig).TickerInterval ≠
      9223372036855 * Millisecond ∧
    ¬ 0 < (applyEnvConfig (intervalEnv "9223372036855") (fun _ => none)
      testConfig).TickerInterval ∧
    (applyEnvConfig (intervalEnv "2000") (fun _ => none) testConfig).TickerInterval =
      2 * Second := by
  decide

end Prommy
